import Mathlib

/-!
# mrConfig: the `Config` store of `src/Config.js`

A shallow embedding of the class `Config` and a verification of its
load / validate / merge / save contract.

Modelling conventions.

* JavaScript values are the values a JSON document or a plain object literal
  of data can hold: `undefined`, `null`, booleans, numbers, strings, arrays
  and plain objects.  An object is the list of its own enumerable properties
  in enumeration order; a well-formed object has no repeated key (`Val.WF`).
  A value can also be a built-in function, which is what most inherited
  members are.
* A read `o[key]` looks among the own properties first and then up the
  prototype chain.  What the chain provides for a key that is not an own
  property (`constructor`, `toString`, `valueOf`, ...) belongs to the runtime
  and is a parameter (`Env.inherited`).  An own property named `__proto__`,
  whose assignment sets the prototype instead of a property, is not modelled.
* Values are compared and copied by value; aliasing between a payload and the
  store is not modelled.
* A number is `NaN`, an infinity, or a finite decimal `m * 10 ^ e`; the
  rounding of a literal to the nearest double and the sign of zero are not
  modelled.
* Strings are sequences of characters; `length` and indexed reads count
  characters (this agrees with JavaScript on strings of the Basic
  Multilingual Plane).
* `JSON.parse`, `JSON.stringify` and the `json-fixer` helper are parameters
  too (`Env`); the file system is an explicit map from path to text on which
  writes always succeed.  Console output is not modelled.
* A method returns an `Outcome`: the store and the file system the call
  leaves, and the value returned or the error thrown.  A history of one store
  is a list of calls (`Op`) run from its initial state.
-/

namespace MrConfig

/-! ## Values -/

/-- A JavaScript number: `NaN`, plus or minus infinity, or the finite decimal
`m * 10 ^ e` (kept normalised: `m` is not a multiple of ten, or `m = e = 0`). -/
inductive JSNum where
  | nan
  | inf (neg : Bool)
  | fin (m : Int) (e : Int)
deriving DecidableEq, Repr

/-- The decimal `m * 10 ^ e` with the trailing zeros of `m` moved into the
exponent (at most `fuel` of them). -/
def JSNum.normalize : Nat → Int → Int → JSNum
  | 0, m, e => .fin m e
  | fuel + 1, m, e =>
    if m = 0 then .fin 0 0
    else if m % 10 = 0 then JSNum.normalize fuel (m / 10) (e + 1)
    else .fin m e

/-- The integer `n` as a JavaScript number. -/
def JSNum.ofInt (n : Int) : JSNum := JSNum.normalize n.natAbs n 0

/-- The results of the `typeof` operator on the values of the model. -/
inductive JSType where
  | undefined
  | object
  | boolean
  | number
  | string
  | function
deriving DecidableEq, Repr

/-- The string `typeof` evaluates to. -/
def JSType.name : JSType → String
  | .undefined => "undefined"
  | .object => "object"
  | .boolean => "boolean"
  | .number => "number"
  | .string => "string"
  | .function => "function"

/-- JavaScript values. -/
inductive Val where
  | undefined
  | null
  | bool (b : Bool)
  | num (n : JSNum)
  | str (s : String)
  | arr (xs : List Val)
  | obj (props : List (String × Val))
  /-- A built-in function, by name: `Object`, `toString`, ... -/
  | func (name : String)

/-- The operator `typeof v`. -/
def typeOf : Val → JSType
  | .undefined => .undefined
  | .null => .object
  | .bool _ => .boolean
  | .num _ => .number
  | .str _ => .string
  | .arr _ => .object
  | .obj _ => .object
  | .func _ => .function

/-- The test `Array.isArray(v)`. -/
def isArray : Val → Bool
  | .arr _ => true
  | _ => false

/-- The scalars: strings, numbers and booleans. -/
def isScalar (v : Val) : Bool :=
  typeOf v = .string || typeOf v = .number || typeOf v = .boolean

/-- Errors a call can raise. -/
inductive Err where
  /-- An `Error` object built with `new Error(message)`. -/
  | error (message : String)
  /-- A `TypeError` of the runtime: a property read on `null` or `undefined`,
  or a write to a character of a string. -/
  | typeError
  /-- A `SyntaxError` of `JSON.parse`. -/
  | syntaxError
  /-- An exception raised by the repair helper. -/
  | fixerError
  /-- An error of the file system: a read of a file that does not exist. -/
  | ioError
deriving DecidableEq, Repr

/-! ## Own properties -/

/-- Own property lookup in a property list: the first entry with the key. -/
def lookup : List (String × Val) → String → Option Val
  | [], _ => none
  | (k, v) :: ps, key => if k = key then some v else lookup ps key

/-- The assignment `o[key] = v` on a plain object: an existing property keeps
its place and takes the new value, a new property is added at the end. -/
def setOwn : List (String × Val) → String → Val → List (String × Val)
  | [], key, v => [(key, v)]
  | (k, w) :: ps, key, v =>
    if k = key then (k, v) :: ps else (k, w) :: setOwn ps key v

/-- No two properties of the list have the same key. -/
def distinctKeys : List (String × Val) → Bool
  | [] => true
  | (k, _) :: ps => (lookup ps k).isNone && distinctKeys ps

/-- The array index a property key denotes, among the indices below `n`:
the `i` whose decimal string is the key. -/
def indexOfKey (n : Nat) (key : String) : Option Nat :=
  (List.range n).find? (fun i => toString i = key)

/-- The read `o[key]` of a key the loop `for (let key in o)` gives: an own
property of `o`.  (For any other key the result is `undefined`; a read that
can leave the own properties is `getProp`.) -/
def getOwn : Val → String → Val
  | .obj ps, key => (lookup ps key).getD .undefined
  | .arr xs, key =>
    match indexOfKey xs.length key with
    | some i => xs.getD i .undefined
    | none => if key = "length" then .num (JSNum.ofInt xs.length) else .undefined
  | .str s, key =>
    match indexOfKey s.length key with
    | some i => .str (String.singleton (s.toList.getD i ' '))
    | none => if key = "length" then .num (JSNum.ofInt s.length) else .undefined
  | _, _ => .undefined

/-- The library functions the class calls, and the built-in members its reads
can reach.  `jsonFix` is the `json-fixer` helper, returning the pair
`(data, changed)`; `stringify v pretty` is
`JSON.stringify(v, null, pretty ? 2 : undefined)` on a value other than
`undefined`; `inherited v key` is what the read `v[key]` gives when `key` is
not an own property of `v`: the member of that name on the prototype chain of
`v` (`Object.prototype.constructor`, `Array.prototype.push`, ...), and
`undefined` when the chain has none.  The properties of a built-in function,
which the model does not hold, are taken from it as well. -/
structure Env where
  jsonFix : String → Except Err (Val × Bool)
  parse : String → Except Err Val
  stringify : Val → Bool → String
  inherited : Val → String → Val

/-- The read `o[key]`: a `TypeError` on `null` and `undefined`; on any other
value the own property of that name when there is one (a property of an
object, an element of an array, a character of a string, their `length`), and
otherwise what the prototype chain provides. -/
def getProp (env : Env) : Val → String → Except Err Val
  | .undefined, _ => .error .typeError
  | .null, _ => .error .typeError
  | .obj ps, key =>
    match lookup ps key with
    | some v => .ok v
    | none => .ok (env.inherited (.obj ps) key)
  | .arr xs, key =>
    match indexOfKey xs.length key with
    | some i => .ok (xs.getD i .undefined)
    | none =>
      if key = "length" then .ok (.num (JSNum.ofInt xs.length))
      else .ok (env.inherited (.arr xs) key)
  | .str s, key =>
    match indexOfKey s.length key with
    | some i => .ok (.str (String.singleton (s.toList.getD i ' ')))
    | none =>
      if key = "length" then .ok (.num (JSNum.ofInt s.length))
      else .ok (env.inherited (.str s) key)
  | v, key => .ok (env.inherited v key)

/-- The keys `for (let key in v)` enumerates, in order. -/
def ownKeys : Val → List String
  | .obj ps => ps.map Prod.fst
  | .arr xs => (List.range xs.length).map toString
  | .str s => (List.range s.length).map toString
  | _ => []

/-- The value a chain of keys leads to through nested mappings, if the value
holds a mapping at every key of the chain but the last. -/
def atPath : List String → Val → Option Val
  | [], v => some v
  | key :: rest, .obj ps =>
    match lookup ps key with
    | some w => atPath rest w
    | none => none
  | _ :: _, _ => none

/-- The candidate that holds a chain of keys and nothing else: nested mappings
of one key each, with `v` at the end. -/
def chainOf : List String → Val → Val
  | [], v => v
  | key :: rest, v => .obj [(key, chainOf rest v)]

mutual
/-- Well-formed values: no object has two properties with the same key. -/
def Val.WF : Val → Bool
  | .arr xs => Val.WFList xs
  | .obj ps => Val.WFProps ps
  | _ => true
/-- Well-formedness of the elements of an array. -/
def Val.WFList : List Val → Bool
  | [] => true
  | x :: xs => Val.WF x && Val.WFList xs
/-- Well-formedness of a property list: distinct keys, well-formed values. -/
def Val.WFProps : List (String × Val) → Bool
  | [] => true
  | (k, v) :: ps => (lookup ps k).isNone && Val.WF v && Val.WFProps ps
end

/-! ## `Number` applied to a string -/

/-- The characters `StringToNumber` strips from both ends: white space and
line terminators. -/
def isStrWhiteSpace (c : Char) : Bool :=
  c.toNat ∈ [0x09, 0x0A, 0x0B, 0x0C, 0x0D, 0x20, 0xA0, 0x1680, 0x2028, 0x2029,
    0x202F, 0x205F, 0x3000, 0xFEFF] || (0x2000 ≤ c.toNat && c.toNat ≤ 0x200A)

/-- The value of a digit in a base up to sixteen, when the character is one. -/
def digitValue (base : Nat) (c : Char) : Option Nat :=
  let d : Option Nat :=
    if '0' ≤ c ∧ c ≤ '9' then some (c.toNat - '0'.toNat)
    else if 'a' ≤ c ∧ c ≤ 'f' then some (c.toNat - 'a'.toNat + 10)
    else if 'A' ≤ c ∧ c ≤ 'F' then some (c.toNat - 'A'.toNat + 10)
    else none
  d.filter (fun v => v < base)

/-- The value of a non-empty run of digits in the base; `none` on any other
character and on the empty run. -/
def digitsValue (base : Nat) (cs : List Char) : Option Nat :=
  if cs.isEmpty then none
  else cs.foldl (fun acc c => acc.bind (fun a => (digitValue base c).map (fun d => base * a + d)))
    (some 0)

/-- The exponent part of a decimal literal (`e`, a sign, digits), or nothing. -/
def exponentValue : List Char → Option Int
  | [] => some 0
  | c :: rest =>
    if c = 'e' ∨ c = 'E' then
      match rest with
      | '+' :: ds => (digitsValue 10 ds).map Int.ofNat
      | '-' :: ds => (digitsValue 10 ds).map (fun n => - Int.ofNat n)
      | ds => (digitsValue 10 ds).map Int.ofNat
    else none

/-- An unsigned decimal literal: `Infinity`, or digits with an optional
fraction and an optional exponent, at least one digit before the exponent. -/
def unsignedDecimal (cs : List Char) : JSNum :=
  if cs = "Infinity".toList then .inf false
  else
    let isDec : Char → Bool := fun c => (digitValue 10 c).isSome
    let ip := cs.takeWhile isDec
    let afterInt := cs.dropWhile isDec
    let fp := match afterInt with
      | '.' :: t => t.takeWhile isDec
      | _ => []
    let afterFrac := match afterInt with
      | '.' :: t => t.dropWhile isDec
      | _ => afterInt
    if ip.isEmpty && fp.isEmpty then .nan
    else
      match digitsValue 10 ('0' :: (ip ++ fp)), exponentValue afterFrac with
      | some m, some e => JSNum.normalize (ip.length + fp.length) m (e - fp.length)
      | _, _ => .nan

/-- The negation of a number. -/
def JSNum.neg : JSNum → JSNum
  | .nan => .nan
  | .inf b => .inf (!b)
  | .fin m e => .fin (-m) e

/-- A numeric literal without surrounding white space: a binary, octal or
hexadecimal integer, or an optionally signed decimal literal. -/
def numericLiteral : List Char → JSNum
  | '0' :: x :: ds =>
    let nonDecimal : Nat → JSNum := fun base =>
      match digitsValue base ds with
      | some n => JSNum.ofInt n
      | none => .nan
    if x = 'x' ∨ x = 'X' then nonDecimal 16
    else if x = 'o' ∨ x = 'O' then nonDecimal 8
    else if x = 'b' ∨ x = 'B' then nonDecimal 2
    else unsignedDecimal ('0' :: x :: ds)
  | '+' :: cs => unsignedDecimal cs
  | '-' :: cs => (unsignedDecimal cs).neg
  | cs => unsignedDecimal cs

/-- The conversion `Number(s)` of a string: white space is stripped, the empty
string is zero, a numeric literal is its value and anything else is `NaN`. -/
def Number (s : String) : JSNum :=
  let cs := ((s.toList.dropWhile isStrWhiteSpace).reverse.dropWhile isStrWhiteSpace).reverse
  if cs.isEmpty then .fin 0 0 else numericLiteral cs

/-! ## The store -/

/-- The fields of a `Config` instance.  `data` is a plain object, held as its
property list; `knowExactPath` is the private field `#knowExactPath`. -/
structure Config where
  data : List (String × Val)
  name : String
  prettify : Bool
  allowParseToNumber : Bool
  allowJsonFixer : Bool
  ignoreArray : Bool
  filePath : String
  knowExactPath : Bool

/-- The constructor, every argument given. -/
def Config.new (name : String) (prettify allowParseToNumber allowJsonFixer ignoreArray : Bool) :
    Config :=
  { data := []
    name := name
    prettify := prettify
    allowParseToNumber := allowParseToNumber
    allowJsonFixer := allowJsonFixer
    ignoreArray := ignoreArray
    filePath := name ++ ".json"
    knowExactPath := false }

/-- The constructor called with no argument: the default of each parameter. -/
def Config.default : Config := Config.new "config" false true true false

/-- The file system: the text of the file at each path, if there is one. -/
abbrev FS := String → Option String

/-- The call `fs.writeFileSync(file, text)`. -/
def FS.write (fs : FS) (file : String) (text : String) : FS :=
  fun p => if p = file then some text else fs p

/-- The message of the error `validateObjectTypes` throws. -/
def mismatchMessage (name key : String) (expected : JSType) : String :=
  name ++ " key " ++ key ++ " is not of type " ++ expected.name

/-- The body of the loop of `validateObjectTypes` for a key whose value `v` is
not an object to recurse into, against the base value `b2 = obj2[key]` (known
to be defined): the value left in `obj1[key]`, or the error thrown. -/
def checkScalar (c : Config) (key : String) (v b2 : Val) : Except Err Val :=
  if typeOf v ≠ typeOf b2 then
    match c.allowParseToNumber, v, typeOf b2 with
    | true, .str s, .number => .ok (.num (Number s))
    | _, _, _ => .error (.error (mismatchMessage c.name key (typeOf b2)))
  else .ok v

mutual
/-- The method `validateObjectTypes(obj1, obj2)`: the boolean returned together
with `obj1` as the call leaves it (coerced values written in place), or the
error thrown. -/
def validateObjectTypes (env : Env) (c : Config) : Val → Val → Except Err (Bool × Val)
  | .obj ps, obj2 =>
    match validateProps env c ps obj2 with
    | .error e => .error e
    | .ok (r, ps1) => .ok (r, .obj ps1)
  | .arr xs, obj2 =>
    match validateElems env c 0 xs obj2 with
    | .error e => .error e
    | .ok (r, xs1) => .ok (r, .arr xs1)
  | .str s, obj2 =>
    match validateChars env c 0 s.toList obj2 with
    | .error e => .error e
    | .ok r => .ok (r, .str s)
  | v, _ => .ok (true, v)
/-- The loop of `validateObjectTypes` over the properties of an object. -/
def validateProps (env : Env) (c : Config) : List (String × Val) → Val → Except Err (Bool × List (String × Val))
  | [], _ => .ok (true, [])
  | (key, v) :: rest, obj2 =>
    if c.ignoreArray && isArray v then
      match validateProps env c rest obj2 with
      | .error e => .error e
      | .ok (r, rest1) => .ok (r, (key, v) :: rest1)
    else
      match getProp env obj2 key with
      | .error e => .error e
      | .ok b2 =>
        if typeOf b2 ≠ .undefined then
          if typeOf v = .object then
            match validateObjectTypes env c v b2 with
            | .error e => .error e
            | .ok (false, v1) => .ok (false, (key, v1) :: rest)
            | .ok (true, v1) =>
              match validateProps env c rest obj2 with
              | .error e => .error e
              | .ok (r, rest1) => .ok (r, (key, v1) :: rest1)
          else
            match checkScalar c key v b2 with
            | .error e => .error e
            | .ok v1 =>
              match validateProps env c rest obj2 with
              | .error e => .error e
              | .ok (r, rest1) => .ok (r, (key, v1) :: rest1)
        else
          match validateProps env c rest obj2 with
          | .error e => .error e
          | .ok (r, rest1) => .ok (r, (key, v) :: rest1)
/-- The loop of `validateObjectTypes` over the elements of an array, from
index `i` on. -/
def validateElems (env : Env) (c : Config) (i : Nat) : List Val → Val → Except Err (Bool × List Val)
  | [], _ => .ok (true, [])
  | v :: rest, obj2 =>
    if c.ignoreArray && isArray v then
      match validateElems env c (i + 1) rest obj2 with
      | .error e => .error e
      | .ok (r, rest1) => .ok (r, v :: rest1)
    else
      match getProp env obj2 (toString i) with
      | .error e => .error e
      | .ok b2 =>
        if typeOf b2 ≠ .undefined then
          if typeOf v = .object then
            match validateObjectTypes env c v b2 with
            | .error e => .error e
            | .ok (false, v1) => .ok (false, v1 :: rest)
            | .ok (true, v1) =>
              match validateElems env c (i + 1) rest obj2 with
              | .error e => .error e
              | .ok (r, rest1) => .ok (r, v1 :: rest1)
          else
            match checkScalar c (toString i) v b2 with
            | .error e => .error e
            | .ok v1 =>
              match validateElems env c (i + 1) rest obj2 with
              | .error e => .error e
              | .ok (r, rest1) => .ok (r, v1 :: rest1)
        else
          match validateElems env c (i + 1) rest obj2 with
          | .error e => .error e
          | .ok (r, rest1) => .ok (r, v :: rest1)
/-- The loop of `validateObjectTypes` over the characters of a string, from
index `i` on.  A character is a string, never an object or an array; the
class body is strict code, where the write of a coerced value to a character
of a string throws a `TypeError`. -/
def validateChars (env : Env) (c : Config) (i : Nat) : List Char → Val → Except Err Bool
  | [], _ => .ok true
  | ch :: rest, obj2 =>
    match getProp env obj2 (toString i) with
    | .error e => .error e
    | .ok b2 =>
      if typeOf b2 ≠ .undefined then
        match checkScalar c (toString i) (.str (String.singleton ch)) b2 with
        | .error e => .error e
        | .ok v1 =>
          if typeOf v1 = .number then .error .typeError
          else validateChars env c (i + 1) rest obj2
      else validateChars env c (i + 1) rest obj2
end

/-- One pass of the loop body of `validateObjectTypes` for the key `key` with
`v = obj1[key]`: the value left in `obj1[key]` and `true` when the loop goes
on, `false` when the body returns `false`, or the error thrown. -/
def validateEntry (env : Env) (c : Config) (obj2 : Val) (key : String) (v : Val) : Except Err (Bool × Val) :=
  if c.ignoreArray && isArray v then .ok (true, v)
  else
    match getProp env obj2 key with
    | .error e => .error e
    | .ok b2 =>
      if typeOf b2 ≠ .undefined then
        if typeOf v = .object then validateObjectTypes env c v b2
        else
          match checkScalar c key v b2 with
          | .error e => .error e
          | .ok v1 => .ok (true, v1)
      else .ok (true, v)

/-- The entries of a validated property list, position by position: the key is
kept and the value is what the loop body leaves for it. -/
def EntryOk (env : Env) (c : Config) (obj2 : Val) (p q : String × Val) : Prop :=
  q.1 = p.1 ∧ validateEntry env c obj2 p.1 p.2 = .ok (true, q.2)

/-- The method `validateTypes(config)`. -/
def validateTypes (env : Env) (c : Config) (config : Val) : Except Err (Bool × Val) :=
  validateObjectTypes env c config (.obj c.data)

/-- The state after a call and what the call returned or threw. -/
structure Outcome where
  cfg : Config
  fs : FS
  res : Except Err Val

/-- The method `save(file, content)`: an absent `file` is `this.filePath`, an
absent `content` is `undefined`.  The file system after the call and the
string returned. -/
def save (env : Env) (c : Config) (fs : FS) (file : Option String) (content : Val) :
    FS × String :=
  let jsonStr := env.stringify (if typeOf content = .undefined then .obj c.data else content)
    c.prettify
  (fs.write (file.getD c.filePath) jsonStr, jsonStr)

/-- The loop `for (let key in json) newConfig[key] = json[key]` started from
the empty object. -/
def copyProps (json : Val) : List (String × Val) :=
  (ownKeys json).foldl (fun newConfig key => setOwn newConfig key (getOwn json key)) []

/-- The loop `for (let key in newConfig) this.data[key] = newConfig[key]`. -/
def mergeProps (data : List (String × Val)) (newConfig : Val) : List (String × Val) :=
  (ownKeys newConfig).foldl (fun data key => setOwn data key (getOwn newConfig key)) data

/-- The second half of `fromJson`, from `let newConfig = {}` on, for the
structure `json`: when `validateTypes` returns `false` nothing is merged and
the call returns `undefined`. -/
def loadObject (env : Env) (c : Config) (fs : FS) (json : Val) : Outcome :=
  match validateTypes env c (.obj (copyProps json)) with
  | .error e => ⟨c, fs, .error e⟩
  | .ok (true, newConfig) =>
    let c1 := { c with data := mergeProps c.data newConfig }
    ⟨c1, fs, .ok (.obj c1.data)⟩
  | .ok (false, _) => ⟨c, fs, .ok .undefined⟩

/-- The first half of `fromJson`, up to `json = JSON.parse(json)`: a payload
that is text goes through the repair helper (when `allowJsonFixer` is set) and
the parser, any other payload is taken as it is.  The file system after this
half (repaired text is saved when the exact path is known) and the structure
obtained, or the error thrown. -/
def parsePayload (env : Env) (c : Config) (fs : FS) (json : Val) : FS × Except Err Val :=
  match json with
  | .str text =>
    if c.allowJsonFixer then
      let text1 := if text.length = 0 then "\x7b\x7d" else text
      match env.jsonFix text1 with
      | .error e => (fs, .error e)
      | .ok (data, changed) =>
        if changed then
          let text2 := if typeOf data = .undefined then "undefined" else env.stringify data false
          let fs1 := if c.knowExactPath then (save env c fs (some c.filePath) data).1 else fs
          (fs1, env.parse text2)
        else (fs, env.parse text1)
    else (fs, env.parse text)
  | json => (fs, .ok json)

/-- The method `fromJson(json)`. -/
def fromJson (env : Env) (c : Config) (fs : FS) (json : Val) : Outcome :=
  match parsePayload env c fs json with
  | (fs1, .error e) => ⟨c, fs1, .error e⟩
  | (fs1, .ok parsed) => loadObject env c fs1 parsed

/-- The path `fromFile(file)` works on: `file` when it is given and not
empty, the store's `filePath` otherwise. -/
def pathInUse (c : Config) (file : Option String) : String :=
  match file with
  | some p => if p ≠ "" then p else c.filePath
  | none => c.filePath

/-- The store as `fromFile(file)` leaves its path fields before it reads: a
given, non-empty `file` becomes `filePath` and the exact path is known. -/
def storeInUse (c : Config) (file : Option String) : Config :=
  match file with
  | some p => if p ≠ "" then { c with filePath := p, knowExactPath := true } else c
  | none => c

/-- The rest of `fromFile` once `file` is resolved: the file is created with
`save` when it does not exist, then read and handed to `fromJson`. -/
def readAndLoad (env : Env) (c : Config) (fs : FS) (file : String) : Outcome :=
  let fs1 := if (fs file).isNone then (save env c fs (some file) .undefined).1 else fs
  match fs1 file with
  | none => ⟨c, fs1, .error .ioError⟩
  | some text => fromJson env c fs1 (.str text)

/-- The method `fromFile(file)`; an absent `file` and the empty string are
falsy. -/
def fromFile (env : Env) (c : Config) (fs : FS) (file : Option String) : Outcome :=
  match file with
  | some p =>
    if p ≠ "" then readAndLoad env { c with filePath := p, knowExactPath := true } fs p
    else readAndLoad env c fs c.filePath
  | none => readAndLoad env c fs c.filePath

/-! ## Sequences of calls on one store -/

/-- A call of a method of the class on a store. -/
inductive Op where
  | fromFile (file : Option String)
  | fromJson (json : Val)
  | save (file : Option String) (content : Val)
  | validateTypes (config : Val)

/-- The store and the file system after one call, whether it returns or
throws. -/
def step (env : Env) (s : Config × FS) : Op → Config × FS
  | .fromFile file => ((fromFile env s.1 s.2 file).cfg, (fromFile env s.1 s.2 file).fs)
  | .fromJson json => ((fromJson env s.1 s.2 json).cfg, (fromJson env s.1 s.2 json).fs)
  | .save file content => (s.1, (save env s.1 s.2 file content).1)
  | .validateTypes _ => s

/-- The store and the file system after a sequence of calls. -/
def run (env : Env) (s : Config × FS) (ops : List Op) : Config × FS :=
  ops.foldl (step env) s

/-- The path a call gives `fromFile` explicitly, if it is such a call. -/
def explicitPath : Op → Option String
  | .fromFile (some p) => if p ≠ "" then some p else none
  | _ => none

/-- The path of the most recent call of `fromFile` with an explicit path in a
sequence of calls, if there is one. -/
def lastExplicitPath (ops : List Op) : Option String :=
  ops.foldl (fun acc op => (explicitPath op).orElse (fun _ => acc)) none

/-! ## Equality of values is decidable -/

mutual
/-- Structural equality test on values. -/
def Val.beq : Val → Val → Bool
  | .undefined, .undefined => true
  | .null, .null => true
  | .bool a, .bool b => a == b
  | .num a, .num b => decide (a = b)
  | .str a, .str b => decide (a = b)
  | .arr xs, .arr ys => Val.beqList xs ys
  | .obj ps, .obj qs => Val.beqProps ps qs
  | .func a, .func b => decide (a = b)
  | _, _ => false
/-- Structural equality test on arrays. -/
def Val.beqList : List Val → List Val → Bool
  | [], [] => true
  | x :: xs, y :: ys => Val.beq x y && Val.beqList xs ys
  | _, _ => false
/-- Structural equality test on property lists. -/
def Val.beqProps : List (String × Val) → List (String × Val) → Bool
  | [], [] => true
  | (k, x) :: xs, (l, y) :: ys => decide (k = l) && Val.beq x y && Val.beqProps xs ys
  | _, _ => false
end

mutual
theorem Val.beq_iff : ∀ (a b : Val), Val.beq a b = true ↔ a = b
  | .undefined, b => by cases b <;> simp [Val.beq]
  | .null, b => by cases b <;> simp [Val.beq]
  | .bool a, b => by cases b <;> simp [Val.beq]
  | .num a, b => by cases b <;> simp [Val.beq]
  | .str a, b => by cases b <;> simp [Val.beq]
  | .arr xs, b => by
    cases b <;> simp [Val.beq]
    exact Val.beqList_iff xs _
  | .obj ps, b => by
    cases b <;> simp [Val.beq]
    exact Val.beqProps_iff ps _
  | .func a, b => by cases b <;> simp [Val.beq]
theorem Val.beqList_iff : ∀ (a b : List Val), Val.beqList a b = true ↔ a = b
  | [], b => by cases b <;> simp [Val.beqList]
  | x :: xs, b => by
    cases b with
    | nil => simp [Val.beqList]
    | cons y ys => simp [Val.beqList, Val.beq_iff x y, Val.beqList_iff xs ys]
theorem Val.beqProps_iff : ∀ (a b : List (String × Val)), Val.beqProps a b = true ↔ a = b
  | [], b => by cases b <;> simp [Val.beqProps]
  | (k, x) :: xs, b => by
    cases b with
    | nil => simp [Val.beqProps]
    | cons y ys =>
      obtain ⟨l, y⟩ := y
      simp [Val.beqProps, Val.beq_iff x y, Val.beqProps_iff xs ys, and_assoc]
end

instance : DecidableEq Val := fun a b => decidable_of_iff _ (Val.beq_iff a b)

deriving instance DecidableEq for Except

/-! ## Values for the examples -/

/-- The documents the example environment knows: a text and the structure it
denotes. -/
def demoDocs : List (String × Val) :=
  [("\x7b\x7d", .obj []),
   ("\x7b\"a\":1\x7d", .obj [("a", .num (.fin 1 0))]),
   ("\x7b\"a\":1,\"b\":\"new\"\x7d", .obj [("a", .num (.fin 1 0)), ("b", .str "new")]),
   ("\x7b\"a\":true\x7d", .obj [("a", .bool true)]),
   ("\x7b\"constructor\":1\x7d", .obj [("constructor", .num (.fin 1 0))]),
   ("\x7b\"n\":\x7b\"x\":[1,null]\x7d\x7d",
     .obj [("n", .obj [("x", .arr [.num (.fin 1 0), .null])])])]

/-- The malformed texts the example repair helper knows, with the structure it
repairs each to. -/
def demoRepairs : List (String × Val) :=
  [("\x7ba:1\x7d", .obj [("a", .num (.fin 1 0))]),
   ("\x7b\"a\":true,\x7d", .obj [("a", .bool true)])]

/-- The function-valued members of `Object.prototype`, which every value
other than `null` and `undefined` inherits (its own prototype may override one,
with a function again). -/
def objectPrototypeMethods : List String :=
  ["hasOwnProperty", "isPrototypeOf", "propertyIsEnumerable", "toLocaleString", "toString",
    "valueOf", "__defineGetter__", "__defineSetter__", "__lookupGetter__", "__lookupSetter__"]

/-- The name of the function a value inherits as `constructor`. -/
def constructorName : Val → String
  | .bool _ => "Boolean"
  | .num _ => "Number"
  | .str _ => "String"
  | .arr _ => "Array"
  | .func _ => "Function"
  | _ => "Object"

/-- An environment for the examples: parsing and serialization are inverse to
each other on `demoDocs`, and the repair helper reports no change on those
documents and a change on the texts of `demoRepairs`.  The inherited members
are those every value has from `Object.prototype`: `constructor`, the methods
and `__proto__` (a built-in object without enumerable properties); the further
methods of arrays, strings, numbers, booleans and functions are left out. -/
def demoEnv : Env where
  jsonFix text :=
    match demoDocs.find? (fun d => d.1 = text) with
    | some d => .ok (d.2, false)
    | none =>
      match demoRepairs.find? (fun d => d.1 = text) with
      | some d => .ok (d.2, true)
      | none => .error .fixerError
  parse text :=
    match demoDocs.find? (fun d => d.1 = text) with
    | some d => .ok d.2
    | none => .error .syntaxError
  stringify v _ :=
    match demoDocs.find? (fun d => d.2 = v) with
    | some d => d.1
    | none => "null"
  inherited v key :=
    if key = "constructor" then .func (constructorName v)
    else if key ∈ objectPrototypeMethods then .func key
    else if key = "__proto__" then .obj []
    else .undefined

/-- A file system with no file. -/
def noFiles : FS := fun _ => none

/-- A store built with the default flags holding the given data. -/
def storeWith (data : List (String × Val)) : Config := { Config.default with data := data }

/-- The store of the example for C1: a number and a nested mapping. -/
def mergeStore : Config :=
  storeWith [("a", .num (.fin 1 0)), ("n", .obj [("x", .num (.fin 1 0)), ("y", .num (.fin 2 0))]),
    ("keep", .bool true)]

/-- The payload of the example for C1: a numeric string for `a`, a smaller
mapping for `n` and a new key. -/
def mergePayload : Val :=
  .obj [("a", .str "5"), ("n", .obj [("x", .str "3")]), ("b", .str "new")]

/-- A store that exempts arrays from validation (`ignoreArray = true`, the
other flags at their defaults), with a numeric default under `port`. -/
def arrayStore : Config :=
  { Config.new "config" false true true true with data := [("port", .num (.fin 8081 0))] }

/-- A payload that carries an array under `port`. -/
def arrayPayload : Val := .obj [("port", .arr [.str "x", .null])]

/-- The store of the array exemption example: `ignoreArray = true`, defaults
`{a: 1}`. -/
def exemptStore : Config :=
  { Config.new "config" false true true true with data := [("a", .num (.fin 1 0))] }

/-- The candidate `{a: [1, 2, 3]}`. -/
def exemptPayload : Val :=
  .obj [("a", .arr [.num (.fin 1 0), .num (.fin 2 0), .num (.fin 3 0)])]

/-- A store that knows its exact path `cfg.json` and holds the numeric default
`{a: 1}`. -/
def knownPathStore : Config :=
  { storeWith [("a", .num (.fin 1 0))] with filePath := "cfg.json", knowExactPath := true }

/-- A store whose defaults hold `null` under `z` and the mapping `{b: 1}` under
`a`. -/
def nullDefaultStore : Config :=
  storeWith [("z", .null), ("a", .obj [("b", .num (.fin 1 0))])]

/-- A candidate that holds a mapping under `z` and a boolean at `a.b`. -/
def nullDefaultPayload : Val :=
  .obj [("z", .obj [("q", .num (.fin 1 0))]), ("a", .obj [("b", .bool true)])]

/-- The mapping `{constructor: 1}`: one key, which every object inherits as a
function, and a number under it. -/
def inheritedKeyMapping : Val := .obj [("constructor", .num (.fin 1 0))]

/-! ## Property lists -/

theorem lookup_setOwn (ps : List (String × Val)) (k k1 : String) (v : Val) :
    lookup (setOwn ps k v) k1 = if k = k1 then some v else lookup ps k1 := by
  induction ps with
  | nil => simp [setOwn, lookup]
  | cons p ps ih =>
    obtain ⟨a, w⟩ := p
    by_cases h : a = k
    · subst h
      by_cases h1 : a = k1 <;> simp [setOwn, lookup, h1]
    · by_cases h1 : a = k1
      · subst h1
        simp [setOwn, lookup, h, Ne.symm h]
      · simp [setOwn, lookup, h, h1, ih]

theorem lookup_foldl_setOwn (f : String → Val) (keys : List String) :
    ∀ (d : List (String × Val)) (k1 : String),
      lookup (keys.foldl (fun d k => setOwn d k (f k)) d) k1 =
        if k1 ∈ keys then some (f k1) else lookup d k1 := by
  induction keys with
  | nil => intro d k1; simp
  | cons k ks ih =>
    intro d k1
    rw [List.foldl_cons, ih, lookup_setOwn]
    by_cases h : k1 ∈ ks
    · simp [h]
    · by_cases h1 : k = k1
      · subst h1; simp [h]
      · simp [h, h1, Ne.symm h1]

theorem lookup_isSome_iff (ps : List (String × Val)) (k : String) :
    (lookup ps k).isSome = true ↔ k ∈ ps.map Prod.fst := by
  induction ps with
  | nil => simp [lookup]
  | cons p ps ih =>
    obtain ⟨a, w⟩ := p
    by_cases h : a = k
    · simp [lookup, h]
    · simp [lookup, h, ih, Ne.symm h]

theorem lookup_copyProps (json : Val) (k : String) :
    lookup (copyProps json) k = if k ∈ ownKeys json then some (getOwn json k) else none := by
  unfold copyProps
  rw [lookup_foldl_setOwn (getOwn json)]
  simp [lookup]

theorem lookup_mergeProps (data : List (String × Val)) (nc : Val) (k : String) :
    lookup (mergeProps data nc) k =
      if k ∈ ownKeys nc then some (getOwn nc k) else lookup data k := by
  unfold mergeProps
  rw [lookup_foldl_setOwn (getOwn nc)]

/-! ## The validation loop, one entry at a time -/

theorem validateProps_cons (env : Env) (c : Config) (key : String) (v : Val) (rest : List (String × Val))
    (obj2 : Val) :
    validateProps env c ((key, v) :: rest) obj2 =
      match validateEntry env c obj2 key v with
      | .error e => .error e
      | .ok (false, v1) => .ok (false, (key, v1) :: rest)
      | .ok (true, v1) =>
        match validateProps env c rest obj2 with
        | .error e => .error e
        | .ok (r, rest1) => .ok (r, (key, v1) :: rest1) := by
  rw [validateProps, validateEntry]
  split
  · rfl
  · split
    · rfl
    · split
      · split
        · split <;> simp_all
        · split <;> simp_all
      · rfl

theorem validateElems_cons (env : Env) (c : Config) (i : Nat) (v : Val) (rest : List Val) (obj2 : Val) :
    validateElems env c i (v :: rest) obj2 =
      match validateEntry env c obj2 (toString i) v with
      | .error e => .error e
      | .ok (false, v1) => .ok (false, v1 :: rest)
      | .ok (true, v1) =>
        match validateElems env c (i + 1) rest obj2 with
        | .error e => .error e
        | .ok (r, rest1) => .ok (r, v1 :: rest1) := by
  rw [validateElems, validateEntry]
  split
  · rfl
  · split
    · rfl
    · split
      · split
        · split <;> simp_all
        · split <;> simp_all
      · rfl

theorem validateChars_true (env : Env) (c : Config) (cs : List Char) :
    ∀ (i : Nat) (obj2 : Val) (r : Bool), validateChars env c i cs obj2 = .ok r → r = true := by
  induction cs with
  | nil => intro i obj2 r h; simp [validateChars] at h; exact h
  | cons ch rest ih =>
    intro i obj2 r h
    rw [validateChars] at h
    split at h
    · simp at h
    · split at h
      · split at h
        · simp at h
        · split at h
          · simp at h
          · exact ih _ _ _ h
      · exact ih _ _ _ h

mutual
theorem validateObjectTypes_true (env : Env) (c : Config) :
    ∀ (obj1 obj2 : Val) (r : Bool) (out : Val),
      validateObjectTypes env c obj1 obj2 = .ok (r, out) → r = true
  | .obj ps, obj2, r, out => by
    intro h
    rw [validateObjectTypes] at h
    cases hp : validateProps env c ps obj2 with
    | error e => simp [hp] at h
    | ok q =>
      obtain ⟨r1, ps1⟩ := q
      simp only [hp, Except.ok.injEq, Prod.mk.injEq] at h
      exact h.1 ▸ validateProps_true env c ps obj2 r1 ps1 hp
  | .arr xs, obj2, r, out => by
    intro h
    rw [validateObjectTypes] at h
    cases hp : validateElems env c 0 xs obj2 with
    | error e => simp [hp] at h
    | ok q =>
      obtain ⟨r1, xs1⟩ := q
      simp only [hp, Except.ok.injEq, Prod.mk.injEq] at h
      exact h.1 ▸ validateElems_true env c 0 xs obj2 r1 xs1 hp
  | .str s, obj2, r, out => by
    intro h
    rw [validateObjectTypes] at h
    split at h
    · simp at h
    · rename_i r1 hp
      simp only [Except.ok.injEq, Prod.mk.injEq] at h
      exact h.1 ▸ validateChars_true env c _ 0 obj2 r1 hp
  | .undefined, _, r, out => by intro h; simp [validateObjectTypes] at h; exact h.1
  | .null, _, r, out => by intro h; simp [validateObjectTypes] at h; exact h.1
  | .bool _, _, r, out => by intro h; simp [validateObjectTypes] at h; exact h.1
  | .num _, _, r, out => by intro h; simp [validateObjectTypes] at h; exact h.1
  | .func _, _, r, out => by intro h; simp [validateObjectTypes] at h; exact h.1
theorem validateProps_true (env : Env) (c : Config) :
    ∀ (ps : List (String × Val)) (obj2 : Val) (r : Bool) (out : List (String × Val)),
      validateProps env c ps obj2 = .ok (r, out) → r = true
  | [], obj2, r, out => by intro h; simp [validateProps] at h; exact h.1
  | (key, v) :: rest, obj2, r, out => by
    intro h
    rw [validateProps_cons env] at h
    cases he : validateEntry env c obj2 key v with
    | error e => simp [he] at h
    | ok q =>
      obtain ⟨r1, v1⟩ := q
      have hr1 : r1 = true := validateEntry_true env c obj2 key v r1 v1 he
      subst hr1
      simp only [he] at h
      cases hp : validateProps env c rest obj2 with
      | error e => simp [hp] at h
      | ok q2 =>
        obtain ⟨r2, rest1⟩ := q2
        simp only [hp, Except.ok.injEq, Prod.mk.injEq] at h
        exact h.1 ▸ validateProps_true env c rest obj2 r2 rest1 hp
theorem validateElems_true (env : Env) (c : Config) :
    ∀ (i : Nat) (xs : List Val) (obj2 : Val) (r : Bool) (out : List Val),
      validateElems env c i xs obj2 = .ok (r, out) → r = true
  | i, [], obj2, r, out => by intro h; simp [validateElems] at h; exact h.1
  | i, v :: rest, obj2, r, out => by
    intro h
    rw [validateElems_cons env] at h
    cases he : validateEntry env c obj2 (toString i) v with
    | error e => simp [he] at h
    | ok q =>
      obtain ⟨r1, v1⟩ := q
      have hr1 : r1 = true := validateEntry_true env c obj2 (toString i) v r1 v1 he
      subst hr1
      simp only [he] at h
      cases hp : validateElems env c (i + 1) rest obj2 with
      | error e => simp [hp] at h
      | ok q2 =>
        obtain ⟨r2, rest1⟩ := q2
        simp only [hp, Except.ok.injEq, Prod.mk.injEq] at h
        exact h.1 ▸ validateElems_true env c (i + 1) rest obj2 r2 rest1 hp
theorem validateEntry_true (env : Env) (c : Config) :
    ∀ (obj2 : Val) (key : String) (v : Val) (r : Bool) (out : Val),
      validateEntry env c obj2 key v = .ok (r, out) → r = true
  | obj2, key, v, r, out => by
    intro h
    unfold validateEntry at h
    split at h
    · simp at h; exact h.1
    · split at h
      · simp at h
      · split at h
        · split at h
          · exact validateObjectTypes_true env c v _ r out h
          · split at h
            · simp at h
            · simp at h; exact h.1
        · simp at h; exact h.1
end

/-! ## What a successful validation leaves -/

theorem validateProps_ok (env : Env) (c : Config) (obj2 : Val) (ps : List (String × Val)) :
    ∀ (r : Bool) (out : List (String × Val)), validateProps env c ps obj2 = .ok (r, out) →
      List.Forall₂ (EntryOk env c obj2) ps out := by
  induction ps with
  | nil =>
    intro r out h
    simp only [validateProps, Except.ok.injEq, Prod.mk.injEq] at h
    obtain ⟨-, rfl⟩ := h
    exact List.Forall₂.nil
  | cons p rest ih =>
    obtain ⟨key, v⟩ := p
    intro r out h
    rw [validateProps_cons env] at h
    cases he : validateEntry env c obj2 key v with
    | error e => simp [he] at h
    | ok q =>
      obtain ⟨r1, v1⟩ := q
      have hr1 : r1 = true := validateEntry_true env c obj2 key v r1 v1 he
      subst hr1
      simp only [he] at h
      cases hp : validateProps env c rest obj2 with
      | error e => simp [hp] at h
      | ok q2 =>
        obtain ⟨r2, rest1⟩ := q2
        simp only [hp, Except.ok.injEq, Prod.mk.injEq] at h
        rw [← h.2]
        exact List.Forall₂.cons ⟨rfl, he⟩ (ih r2 rest1 hp)

theorem lookup_of_entryOk (env : Env) (c : Config) (obj2 : Val) (key : String) (ps : List (String × Val)) :
    ∀ (out : List (String × Val)), List.Forall₂ (EntryOk env c obj2) ps out →
      (∀ v, lookup ps key = some v →
        ∃ v1, lookup out key = some v1 ∧ validateEntry env c obj2 key v = .ok (true, v1)) ∧
      (lookup ps key = none → lookup out key = none) := by
  induction ps with
  | nil =>
    intro out h
    cases h
    simp [lookup]
  | cons p rest ih =>
    intro out h
    cases h with
    | cons hpq hrest =>
      rename_i q out1
      obtain ⟨k, v⟩ := p
      obtain ⟨k1, v1⟩ := q
      obtain ⟨hk, hv⟩ := hpq
      simp only at hk hv
      subst hk
      by_cases hkey : k1 = key
      · subst hkey
        simp [lookup, hv]
      · simp only [lookup, hkey, if_false]
        exact ih out1 hrest

/-! ## The two halves of `fromJson` -/

theorem parsePayload_of_not_string (env : Env) (c : Config) (fs : FS) (json : Val)
    (h : typeOf json ≠ .string) : parsePayload env c fs json = (fs, .ok json) := by
  cases json <;> first | rfl | exact absurd rfl h

theorem fromJson_of_not_string (env : Env) (c : Config) (fs : FS) (json : Val)
    (h : typeOf json ≠ .string) : fromJson env c fs json = loadObject env c fs json := by
  unfold fromJson
  rw [parsePayload_of_not_string env c fs json h]

theorem fromJson_of_parsed (env : Env) (c : Config) (fs : FS) (json parsed : Val)
    (h : (parsePayload env c fs json).2 = .ok parsed) :
    fromJson env c fs json = loadObject env c (parsePayload env c fs json).1 parsed := by
  unfold fromJson
  cases hp : parsePayload env c fs json with
  | mk fs1 r =>
    rw [hp] at h
    simp only at h
    subst h
    rfl

theorem fromJson_ok_parsed (env : Env) (c : Config) (fs : FS) (json ret : Val)
    (h : (fromJson env c fs json).res = .ok ret) :
    ∃ parsed, (parsePayload env c fs json).2 = .ok parsed := by
  unfold fromJson at h
  cases hp : parsePayload env c fs json with
  | mk fs1 r =>
    cases r with
    | error e => simp [hp] at h
    | ok parsed => exact ⟨parsed, rfl⟩

/-- What a successful second half of `fromJson` does to the store. -/
theorem loadObject_ok (env : Env) (c : Config) (fs : FS) (json ret : Val)
    (hok : (loadObject env c fs json).res = .ok ret) :
    (∀ key, key ∈ ownKeys json →
      ∃ v1, validateEntry env c (.obj c.data) key (getOwn json key) = .ok (true, v1) ∧
        lookup (loadObject env c fs json).cfg.data key = some v1) ∧
    (∀ key, key ∉ ownKeys json →
      lookup (loadObject env c fs json).cfg.data key = lookup c.data key) ∧
    ret = .obj (loadObject env c fs json).cfg.data ∧
    (loadObject env c fs json).cfg = { c with data := (loadObject env c fs json).cfg.data } ∧
    (loadObject env c fs json).fs = fs := by
  unfold loadObject validateTypes at hok ⊢
  rw [validateObjectTypes] at hok ⊢
  cases hp : validateProps env c (copyProps json) (.obj c.data) with
  | error e => simp [hp] at hok
  | ok q =>
    obtain ⟨r, nc⟩ := q
    have hr : r = true := validateProps_true env c _ _ r nc hp
    subst hr
    have hall := validateProps_ok env c _ _ _ _ hp
    simp only [hp] at hok ⊢
    refine ⟨?_, ?_, ?_, ?_⟩
    · intro key hkey
      have hl : lookup (copyProps json) key = some (getOwn json key) := by
        rw [lookup_copyProps, if_pos hkey]
      obtain ⟨v1, hv1, he⟩ := (lookup_of_entryOk env c _ key _ _ hall).1 _ hl
      refine ⟨v1, he, ?_⟩
      have hmem : key ∈ ownKeys (.obj nc) := by
        show key ∈ nc.map Prod.fst
        rw [← lookup_isSome_iff, hv1]; rfl
      rw [lookup_mergeProps, if_pos hmem]
      simp [getOwn, hv1]
    · intro key hkey
      have hl : lookup (copyProps json) key = none := by
        rw [lookup_copyProps, if_neg hkey]
      have hn := (lookup_of_entryOk env c _ key _ _ hall).2 hl
      have hmem : key ∉ ownKeys (.obj nc) := by
        show key ∉ nc.map Prod.fst
        rw [← lookup_isSome_iff, hn]; simp
      rw [lookup_mergeProps, if_neg hmem]
    · simpa using hok.symm
    · simp

/-- A failed second half of `fromJson` leaves the store and the files alone. -/
theorem loadObject_error (env : Env) (c : Config) (fs : FS) (json : Val) (e : Err)
    (h : (loadObject env c fs json).res = .error e) :
    (loadObject env c fs json).cfg = c ∧ (loadObject env c fs json).fs = fs := by
  unfold loadObject at h ⊢
  split at h
  · simp_all
  · simp at h
  · simp at h

/-! ## When the second half of `fromJson` succeeds -/

theorem validateProps_of_entries (env : Env) (c : Config) (obj2 : Val) (ps : List (String × Val)) :
    (∀ p ∈ ps, ∃ v1, validateEntry env c obj2 p.1 p.2 = .ok (true, v1)) →
      ∃ out, validateProps env c ps obj2 = .ok (true, out) := by
  induction ps with
  | nil => intro _; exact ⟨[], by simp [validateProps]⟩
  | cons p rest ih =>
    obtain ⟨key, v⟩ := p
    intro h
    obtain ⟨v1, hv1⟩ := h (key, v) (List.mem_cons_self _ _)
    obtain ⟨out, hout⟩ := ih (fun q hq => h q (List.mem_cons_of_mem _ hq))
    refine ⟨(key, v1) :: out, ?_⟩
    rw [validateProps_cons env]
    simp only at hv1
    simp [hv1, hout]

theorem mem_foldl_setOwn (f : String → Val) (keys : List String) :
    ∀ (d : List (String × Val)) (p : String × Val),
      p ∈ keys.foldl (fun d k => setOwn d k (f k)) d → p ∈ d ∨ (p.1 ∈ keys ∧ p.2 = f p.1) := by
  have hset : ∀ (d : List (String × Val)) (k : String) (v : Val) (p : String × Val),
      p ∈ setOwn d k v → p ∈ d ∨ p = (k, v) := by
    intro d k v p
    induction d with
    | nil => simp [setOwn]
    | cons q d ih =>
      obtain ⟨a, w⟩ := q
      by_cases h : a = k
      · subst h
        simp only [setOwn, if_true, List.mem_cons]
        rintro (h1 | h1)
        · exact Or.inr h1
        · exact Or.inl (Or.inr h1)
      · simp only [setOwn, h, if_false, List.mem_cons]
        rintro (h1 | h1)
        · exact Or.inl (Or.inl h1)
        · rcases ih h1 with h2 | h2
          · exact Or.inl (Or.inr h2)
          · exact Or.inr h2
  induction keys with
  | nil => intro d p h; exact Or.inl h
  | cons k ks ih =>
    intro d p h
    rw [List.foldl_cons] at h
    rcases ih _ _ h with h1 | ⟨h1, h2⟩
    · rcases hset _ _ _ _ h1 with h3 | h3
      · exact Or.inl h3
      · subst h3
        exact Or.inr ⟨List.mem_cons_self _ _, rfl⟩
    · exact Or.inr ⟨List.mem_cons_of_mem _ h1, h2⟩

theorem mem_copyProps (json : Val) (p : String × Val) (h : p ∈ copyProps json) :
    p.1 ∈ ownKeys json ∧ p.2 = getOwn json p.1 := by
  unfold copyProps at h
  rcases mem_foldl_setOwn (getOwn json) _ _ _ h with h1 | h1
  · simp at h1
  · exact h1

/-- The second half of `fromJson` succeeds when the loop body accepts every
key of the structure. -/
theorem loadObject_succeeds (env : Env) (c : Config) (fs : FS) (json : Val)
    (h : ∀ key, key ∈ ownKeys json →
      ∃ v1, validateEntry env c (.obj c.data) key (getOwn json key) = .ok (true, v1)) :
    (loadObject env c fs json).res = .ok (.obj (loadObject env c fs json).cfg.data) := by
  obtain ⟨out, hout⟩ := validateProps_of_entries env c (.obj c.data) (copyProps json) (by
    intro p hp
    obtain ⟨h1, h2⟩ := mem_copyProps json p hp
    rw [h2]
    exact h p.1 h1)
  unfold loadObject validateTypes
  rw [validateObjectTypes]
  simp [hout]

/-! ## C1: a successful load is a shallow merge -/

/-- Claim C1. A successful `fromJson` on a payload that is not text merges the
payload into `data` key by key: every key of the payload maps afterwards to the
payload's value as the validation loop body leaves it (the coerced number for a
coerced string), replacing the previous value whole; every other key keeps the
value it had; the value returned is the updated `data`; nothing else of the
store and no file changes. -/
theorem fromJson_merges_payload (env : Env) (c : Config) (fs : FS) (json ret : Val)
    (hobj : typeOf json ≠ .string) (hok : (fromJson env c fs json).res = .ok ret) :
    (∀ key, key ∈ ownKeys json →
      ∃ v1, validateEntry env c (.obj c.data) key (getOwn json key) = .ok (true, v1) ∧
        lookup (fromJson env c fs json).cfg.data key = some v1) ∧
    (∀ key, key ∉ ownKeys json →
      lookup (fromJson env c fs json).cfg.data key = lookup c.data key) ∧
    ret = .obj (fromJson env c fs json).cfg.data ∧
    (fromJson env c fs json).cfg = { c with data := (fromJson env c fs json).cfg.data } ∧
    (fromJson env c fs json).fs = fs := by
  rw [fromJson_of_not_string env c fs json hobj] at hok ⊢
  exact loadObject_ok env c fs json ret hok

/-- Witness for C1: `a` is coerced, the nested mapping under `n` is replaced
(its key `y` is gone), `b` is added and `keep` keeps its value. -/
theorem fromJson_merges_payload_witness :
    (fromJson demoEnv mergeStore noFiles mergePayload).res =
        .ok (.obj [("a", .num (.fin 5 0)), ("n", .obj [("x", .num (.fin 3 0))]),
          ("keep", .bool true), ("b", .str "new")]) ∧
      lookup (fromJson demoEnv mergeStore noFiles mergePayload).cfg.data "keep" =
        lookup mergeStore.data "keep" ∧
      (∃ v1, validateEntry demoEnv mergeStore (.obj mergeStore.data) "n" (getOwn mergePayload "n")
          = .ok (true, v1) ∧
        lookup (fromJson demoEnv mergeStore noFiles mergePayload).cfg.data "n" = some v1) :=
  have h := fromJson_merges_payload demoEnv mergeStore noFiles mergePayload
    (.obj [("a", .num (.fin 5 0)), ("n", .obj [("x", .num (.fin 3 0))]),
      ("keep", .bool true), ("b", .str "new")]) (by decide) (by decide)
  ⟨by decide, h.2.1 "keep" (by decide), h.1 "n" (by decide)⟩

/-! ## The loop body on a value that is not an object -/

theorem checkScalar_ok (c : Config) (key : String) (v b v1 : Val)
    (h : checkScalar c key v b = .ok v1) :
    (typeOf v = typeOf b ∧ v1 = v) ∨
      (∃ s, v = .str s ∧ typeOf b = .number ∧ c.allowParseToNumber = true ∧
        v1 = .num (Number s)) := by
  unfold checkScalar at h
  split at h
  · split at h
    · rename_i s hflag hty hne
      simp only [Except.ok.injEq] at h
      exact Or.inr ⟨s, rfl, hty, hflag, h.symm⟩
    · simp at h
  · rename_i hty
    simp only [Except.ok.injEq] at h
    exact Or.inl ⟨not_not.mp hty, h.symm⟩

theorem checkScalar_error_iff (c : Config) (key : String) (v b : Val) :
    (∃ e, checkScalar c key v b = .error e) ↔
      (typeOf v ≠ typeOf b ∧
        ¬ (c.allowParseToNumber = true ∧ typeOf v = .string ∧ typeOf b = .number)) := by
  unfold checkScalar
  by_cases hty : typeOf v = typeOf b
  · simp [hty]
  · simp only [ne_eq, hty, not_false_eq_true, if_true, true_and]
    cases hflag : c.allowParseToNumber <;> cases v <;> cases hb : typeOf b <;>
      simp_all [typeOf]

theorem checkScalar_error (c : Config) (key : String) (v b : Val) (e : Err)
    (h : checkScalar c key v b = .error e) :
    e = .error (mismatchMessage c.name key (typeOf b)) := by
  unfold checkScalar at h
  split at h
  · split at h
    · simp at h
    · simp only [Except.error.injEq] at h
      exact h.symm
  · simp at h

theorem validateEntry_of_not_object (env : Env) (c : Config) (obj2 : Val) (key : String) (v b : Val)
    (hb : getProp env obj2 key = .ok b) (hdef : typeOf b ≠ .undefined) (hprim : typeOf v ≠ .object) :
    validateEntry env c obj2 key v =
      match checkScalar c key v b with
      | .error e => .error e
      | .ok v1 => .ok (true, v1) := by
  have harr : isArray v = false := by
    cases v <;> simp_all [isArray, typeOf]
  unfold validateEntry
  simp [harr, hb, hdef, hprim]

theorem validateEntry_of_undefined (env : Env) (c : Config) (obj2 : Val) (key : String) (v b : Val)
    (hb : getProp env obj2 key = .ok b) (hdef : typeOf b = .undefined) :
    validateEntry env c obj2 key v = .ok (true, v) := by
  unfold validateEntry
  simp [hb, hdef]

theorem getProp_obj (env : Env) (ps : List (String × Val)) (key : String) (v : Val)
    (h : lookup ps key = some v) : getProp env (.obj ps) key = .ok v := by
  simp [getProp, h]

theorem getProp_obj_none (env : Env) (ps : List (String × Val)) (key : String)
    (h : lookup ps key = none) :
    getProp env (.obj ps) key = .ok (env.inherited (.obj ps) key) := by
  simp [getProp, h]

/-! ## C2: the type of an existing key -/

/-- Claim C2, as amended. After a successful `fromJson`, a key that `data` held
with a defined value and that the payload carries with a value that is not an
object (a string, a number or a boolean) has a value of the type it had
before: the payload's value itself, or the number a string was coerced to. -/
theorem fromJson_keeps_type_of_primitive (env : Env) (c : Config) (fs : FS)
    (json parsed ret : Val) (key : String) (b : Val)
    (hparse : (parsePayload env c fs json).2 = .ok parsed)
    (hok : (fromJson env c fs json).res = .ok ret)
    (hkey : key ∈ ownKeys parsed)
    (hprim : typeOf (getOwn parsed key) ≠ .object)
    (hb : lookup c.data key = some b) (hdef : typeOf b ≠ .undefined) :
    ∃ v1, lookup (fromJson env c fs json).cfg.data key = some v1 ∧ typeOf v1 = typeOf b ∧
      (v1 = getOwn parsed key ∨
        ∃ s, getOwn parsed key = .str s ∧ c.allowParseToNumber = true ∧ v1 = .num (Number s)) := by
  rw [fromJson_of_parsed env c fs json parsed hparse] at hok ⊢
  obtain ⟨v1, hv1, hl⟩ := (loadObject_ok env c _ parsed ret hok).1 key hkey
  have hget : getProp env (.obj c.data) key = .ok b := getProp_obj env _ _ _ hb
  rw [validateEntry_of_not_object env c _ key _ b hget hdef hprim] at hv1
  cases hc : checkScalar c key (getOwn parsed key) b with
  | error e => simp [hc] at hv1
  | ok v2 =>
    simp only [hc, Except.ok.injEq, Prod.mk.injEq, true_and] at hv1
    subst hv1
    refine ⟨v2, hl, ?_⟩
    rcases checkScalar_ok c key _ b v2 hc with ⟨hty, hv⟩ | ⟨s, hs, hnum, hflag, hv⟩
    · exact ⟨by rw [hv, hty], Or.inl hv⟩
    · exact ⟨by rw [hv, hnum]; rfl, Or.inr ⟨s, hs, hflag, hv⟩⟩

/-- Counterexample to C2 as stated: with `ignoreArray = true` the load
succeeds and the key `port`, a number before, holds an array afterwards. -/
theorem fromJson_changes_type_under_ignoreArray :
    (fromJson demoEnv arrayStore noFiles arrayPayload).res =
        .ok (.obj [("port", .arr [.str "x", .null])]) ∧
      lookup arrayStore.data "port" = some (.num (.fin 8081 0)) ∧
      lookup (fromJson demoEnv arrayStore noFiles arrayPayload).cfg.data "port" =
        some (.arr [.str "x", .null]) ∧
      typeOf (.arr [.str "x", .null]) ≠ typeOf (.num (.fin 8081 0)) := by
  decide

/-- Witness for C2 as amended: the numeric default `a` takes the string `"5"`
coerced to a number. -/
theorem fromJson_keeps_type_of_primitive_witness :
    ∃ v1, lookup (fromJson demoEnv mergeStore noFiles mergePayload).cfg.data "a" = some v1 ∧
      typeOf v1 = typeOf (.num (.fin 1 0)) ∧
      (v1 = getOwn mergePayload "a" ∨
        ∃ s, getOwn mergePayload "a" = .str s ∧ mergeStore.allowParseToNumber = true ∧
          v1 = .num (Number s)) :=
  fromJson_keeps_type_of_primitive demoEnv mergeStore noFiles mergePayload mergePayload
    (.obj [("a", .num (.fin 5 0)), ("n", .obj [("x", .num (.fin 3 0))]),
      ("keep", .bool true), ("b", .str "new")]) "a" (.num (.fin 1 0))
    (by decide) (by decide) (by decide) (by decide) (by decide) (by decide)

/-! ## C3: the type guard on `{a: 1}` against `{a: "x"}` -/

/-- Claim C3, as amended. On a store whose data is `{a: 1}`, the candidate
`{a: "x"}` raises the type-mismatch error when `allowParseToNumber` is `false`
(and the store is left as it was); when `allowParseToNumber` is `true`, the
default, nothing is raised: `"x"` is coerced with `Number`, and the load
succeeds with `NaN` under `a`. -/
theorem fromJson_type_guard (env : Env) (c : Config) (fs : FS)
    (hdata : c.data = [("a", .num (.fin 1 0))]) :
    (c.allowParseToNumber = false →
      (fromJson env c fs (.obj [("a", .str "x")])).res =
          .error (.error (mismatchMessage c.name "a" .number)) ∧
        (fromJson env c fs (.obj [("a", .str "x")])).cfg = c) ∧
    (c.allowParseToNumber = true →
      (fromJson env c fs (.obj [("a", .str "x")])).res = .ok (.obj [("a", .num .nan)]) ∧
        (fromJson env c fs (.obj [("a", .str "x")])).cfg.data = [("a", .num .nan)]) := by
  obtain ⟨data, name, prettify, allowParse, allowFixer, ignoreArray, filePath, known⟩ := c
  simp only at hdata
  subst hdata
  constructor
  · intro h
    simp only at h
    subst h
    cases ignoreArray <;> exact ⟨rfl, rfl⟩
  · intro h
    simp only at h
    subst h
    cases ignoreArray <;> exact ⟨rfl, rfl⟩

/-- Counterexample to C3 as stated: on a store built with the default flags
and holding `{a: 1}`, `fromJson({a: "x"})` raises nothing and returns the data
with `NaN` under `a`. -/
theorem fromJson_default_flags_coerce_any_string :
    (storeWith [("a", .num (.fin 1 0))]).allowParseToNumber = true ∧
      (fromJson demoEnv (storeWith [("a", .num (.fin 1 0))]) noFiles
        (.obj [("a", .str "x")])).res = .ok (.obj [("a", .num .nan)]) := by
  decide

/-- Witness for C3 as amended, on the store with the default flags and on the
same store with `allowParseToNumber = false`. -/
theorem fromJson_type_guard_witness :
    (fromJson demoEnv { storeWith [("a", .num (.fin 1 0))] with allowParseToNumber := false }
        noFiles (.obj [("a", .str "x")])).res =
      .error (.error "config key a is not of type number") ∧
    (fromJson demoEnv (storeWith [("a", .num (.fin 1 0))]) noFiles
        (.obj [("a", .str "x")])).res = .ok (.obj [("a", .num .nan)]) :=
  ⟨((fromJson_type_guard demoEnv
      { storeWith [("a", .num (.fin 1 0))] with allowParseToNumber := false } noFiles rfl).1
      rfl).1,
   ((fromJson_type_guard demoEnv (storeWith [("a", .num (.fin 1 0))]) noFiles rfl).2 rfl).1⟩

/-! ## C4: a numeric string against a numeric default -/

theorem validateEntry_coerces (env : Env) (c : Config) (key s : String) (m : JSNum)
    (hflag : c.allowParseToNumber = true) (hnum : lookup c.data key = some (.num m)) :
    validateEntry env c (.obj c.data) key (.str s) = .ok (true, .num (Number s)) := by
  have hget : getProp env (.obj c.data) key = .ok (.num m) := getProp_obj env _ _ _ hnum
  rw [validateEntry_of_not_object env c _ key _ _ hget (by simp [typeOf]) (by simp [typeOf])]
  simp [checkScalar, typeOf, hflag]

/-- Claim C4, as amended. On a store with `allowParseToNumber = true` whose data
maps a key to a number, a candidate that maps the key to a string denoting the
number `n` (`Number(s) = n`), and whose other keys all pass the validation
loop body, is loaded: `fromJson` returns the updated data, which maps the key
to the number `n`, not to the string. -/
theorem fromJson_coerces_numeric_string (env : Env) (c : Config) (fs : FS) (json : Val)
    (key s : String) (m n : JSNum)
    (hflag : c.allowParseToNumber = true)
    (hnum : lookup c.data key = some (.num m))
    (hobj : typeOf json ≠ .string)
    (hkey : key ∈ ownKeys json) (hstr : getOwn json key = .str s)
    (hlit : Number s = n)
    (hothers : ∀ k, k ∈ ownKeys json → k ≠ key →
      ∃ v1, validateEntry env c (.obj c.data) k (getOwn json k) = .ok (true, v1)) :
    (fromJson env c fs json).res = .ok (.obj (fromJson env c fs json).cfg.data) ∧
      lookup (fromJson env c fs json).cfg.data key = some (.num n) := by
  rw [fromJson_of_not_string env c fs json hobj]
  have hall : ∀ k, k ∈ ownKeys json →
      ∃ v1, validateEntry env c (.obj c.data) k (getOwn json k) = .ok (true, v1) := by
    intro k hk
    by_cases h : k = key
    · subst h
      rw [hstr]
      exact ⟨_, validateEntry_coerces env c k s m hflag hnum⟩
    · exact hothers k hk h
  have hres := loadObject_succeeds env c fs json hall
  refine ⟨hres, ?_⟩
  obtain ⟨v1, hv1, hl⟩ := (loadObject_ok env c fs json _ hres).1 key hkey
  rw [hstr, validateEntry_coerces env c key s m hflag hnum] at hv1
  simp only [Except.ok.injEq, Prod.mk.injEq, true_and] at hv1
  rw [hl, ← hv1, hlit]

/-- Counterexample to C4 as stated: the store has `allowParseToNumber = true`
and a numeric `a`, the candidate maps `a` to `"5"`, and `fromJson` raises
because of the candidate's other key. -/
theorem fromJson_numeric_string_with_bad_sibling :
    (storeWith [("a", .num (.fin 1 0)), ("b", .bool true)]).allowParseToNumber = true ∧
      Number "5" = .fin 5 0 ∧
      (fromJson demoEnv (storeWith [("a", .num (.fin 1 0)), ("b", .bool true)]) noFiles
        (.obj [("a", .str "5"), ("b", .str "no")])).res =
        .error (.error "config key b is not of type boolean") := by
  decide

/-- Witness for C4 as amended: defaults `{a: 1}`, candidate `{a: "5"}`, result
`data.a = 5`. -/
theorem fromJson_coerces_numeric_string_witness :
    (fromJson demoEnv (storeWith [("a", .num (.fin 1 0))]) noFiles (.obj [("a", .str "5")])).res =
        .ok (.obj (fromJson demoEnv (storeWith [("a", .num (.fin 1 0))]) noFiles
          (.obj [("a", .str "5")])).cfg.data) ∧
      lookup (fromJson demoEnv (storeWith [("a", .num (.fin 1 0))]) noFiles
        (.obj [("a", .str "5")])).cfg.data "a" = some (.num (.fin 5 0)) :=
  fromJson_coerces_numeric_string demoEnv (storeWith [("a", .num (.fin 1 0))]) noFiles
    (.obj [("a", .str "5")]) "a" "5" (.fin 1 0) (.fin 5 0)
    (by decide) (by decide) (by decide) (by decide) (by decide) (by decide)
    (by
      intro k hk hne
      simp [ownKeys] at hk
      exact absurd hk hne)

/-! ## C5: a failed load changes nothing in the store -/

/-- Claim C5. When `fromJson` raises, whatever the payload and whatever the
error (a type mismatch, a parse failure, a failure of the repair helper), the
store after the call is the store before it: `data` is unchanged key for key,
also when keys before the failing one had passed or had been coerced. -/
theorem fromJson_error_keeps_store (env : Env) (c : Config) (fs : FS) (json : Val) (e : Err)
    (h : (fromJson env c fs json).res = .error e) :
    (fromJson env c fs json).cfg = c := by
  unfold fromJson at h ⊢
  cases hp : parsePayload env c fs json with
  | mk fs1 r =>
    cases r with
    | error e1 => rfl
    | ok parsed =>
      simp only [hp] at h ⊢
      exact (loadObject_error env c fs1 parsed e h).1

/-- Witness for C5: `a` would have been coerced to `5` before `b` fails, and
the data still maps `a` to `1`; a text that does not parse leaves the store
alone as well. -/
theorem fromJson_error_keeps_store_witness :
    (fromJson demoEnv (storeWith [("a", .num (.fin 1 0)), ("b", .bool true)]) noFiles
        (.obj [("a", .str "5"), ("b", .str "no")])).cfg.data =
      [("a", .num (.fin 1 0)), ("b", .bool true)] ∧
    (fromJson demoEnv { storeWith [("a", .num (.fin 1 0))] with allowJsonFixer := false } noFiles
        (.str "oops")).cfg =
      { storeWith [("a", .num (.fin 1 0))] with allowJsonFixer := false } :=
  ⟨congrArg Config.data (fromJson_error_keeps_store demoEnv
      (storeWith [("a", .num (.fin 1 0)), ("b", .bool true)]) noFiles
      (.obj [("a", .str "5"), ("b", .str "no")])
      (.error "config key b is not of type boolean") (by decide)),
   fromJson_error_keeps_store demoEnv
      { storeWith [("a", .num (.fin 1 0))] with allowJsonFixer := false } noFiles
      (.str "oops") .syntaxError (by decide)⟩

/-! ## C6: keys without a default -/

theorem validateEntry_of_absent (env : Env) (c : Config) (key : String) (v : Val)
    (h : lookup c.data key = none)
    (hnone : typeOf (env.inherited (.obj c.data) key) = .undefined) :
    validateEntry env c (.obj c.data) key v = .ok (true, v) :=
  validateEntry_of_undefined env c _ key v _ (getProp_obj_none env _ _ h) hnone

theorem typeOf_of_isScalar (v : Val) (hs : isScalar v = true) :
    typeOf v ≠ .object ∧ typeOf v ≠ .undefined := by
  cases v <;> simp [isScalar, typeOf] at hs ⊢

theorem validateEntry_of_same_type (env : Env) (c : Config) (key : String) (v b : Val)
    (hb : lookup c.data key = some b) (hs : isScalar v = true) (hty : typeOf v = typeOf b) :
    validateEntry env c (.obj c.data) key v = .ok (true, v) := by
  have hget : getProp env (.obj c.data) key = .ok b := getProp_obj env _ _ _ hb
  have hprim : typeOf v ≠ .object := (typeOf_of_isScalar v hs).1
  have hdef : typeOf b ≠ .undefined := hty ▸ (typeOf_of_isScalar v hs).2
  rw [validateEntry_of_not_object env c _ key v b hget hdef hprim]
  simp [checkScalar, hty]

/-- A key that `data` does not hold and that names an inherited function
(`constructor`, `toString`, ...) is checked against that function: a string, a
number or a boolean under it raises the type-mismatch error. -/
theorem validateEntry_of_inherited_function (env : Env) (c : Config) (key : String) (v : Val)
    (h : lookup c.data key = none)
    (hfun : typeOf (env.inherited (.obj c.data) key) = .function)
    (hs : isScalar v = true) :
    validateEntry env c (.obj c.data) key v =
      .error (.error (mismatchMessage c.name key .function)) := by
  have hprim : typeOf v ≠ .object := (typeOf_of_isScalar v hs).1
  have hne : typeOf v ≠ typeOf (env.inherited (.obj c.data) key) := by
    rw [hfun]
    cases v <;> simp [isScalar, typeOf] at hs ⊢
  obtain ⟨e, he⟩ := (checkScalar_error_iff c key v _).mpr ⟨hne, by rw [hfun]; simp⟩
  rw [validateEntry_of_not_object env c _ key v _ (getProp_obj_none env _ _ h)
    (by rw [hfun]; decide) hprim, he, checkScalar_error c key v _ e he, hfun]

/-- Claim C6, at the failing input. On a fresh store, whose data holds no key,
the payload `{constructor: 1}` is not accepted: `data` has no key
`constructor`, yet `fromJson` raises the type-mismatch error against the
inherited function `Object.prototype.constructor` and nothing is stored.  The
same happens to the key `toString` next to a key that has a default. -/
theorem fromJson_raises_on_inherited_key :
    lookup Config.default.data "constructor" = none ∧
    (fromJson demoEnv Config.default noFiles (.obj [("constructor", .num (.fin 1 0))])).res =
      .error (.error "config key constructor is not of type function") ∧
    (fromJson demoEnv Config.default noFiles (.obj [("constructor", .num (.fin 1 0))])).cfg.data =
      [] ∧
    lookup (storeWith [("a", .num (.fin 1 0))]).data "toString" = none ∧
    (fromJson demoEnv (storeWith [("a", .num (.fin 1 0))]) noFiles
        (.obj [("a", .num (.fin 1 0)), ("toString", .str "new")])).res =
      .error (.error "config key toString is not of type function") := by
  decide

/-- Payloads free of inherited names.  When every top-level key of a payload
is either absent from `data` and not the name of an inherited member, or
carries a scalar of the type of `data`'s value for it, `fromJson` succeeds and
returns the updated data; every key of the payload, whatever the type of a
value that had no default, maps to the payload's value unchanged; every other
key keeps its value; and the data holds every previous key and every key of
the payload. -/
theorem fromJson_accepts_keys_off_the_chain (env : Env) (c : Config) (fs : FS) (json : Val)
    (hobj : typeOf json ≠ .string)
    (h : ∀ key, key ∈ ownKeys json →
      (lookup c.data key = none ∧ typeOf (env.inherited (.obj c.data) key) = .undefined) ∨
        (isScalar (getOwn json key) = true ∧
          ∃ b, lookup c.data key = some b ∧ typeOf (getOwn json key) = typeOf b)) :
    (fromJson env c fs json).res = .ok (.obj (fromJson env c fs json).cfg.data) ∧
    (∀ key, key ∈ ownKeys json →
      lookup (fromJson env c fs json).cfg.data key = some (getOwn json key)) ∧
    (∀ key, key ∉ ownKeys json →
      lookup (fromJson env c fs json).cfg.data key = lookup c.data key) ∧
    (∀ key, key ∈ c.data.map Prod.fst ∨ key ∈ ownKeys json →
      key ∈ (fromJson env c fs json).cfg.data.map Prod.fst) := by
  rw [fromJson_of_not_string env c fs json hobj]
  have hentry : ∀ key, key ∈ ownKeys json →
      validateEntry env c (.obj c.data) key (getOwn json key) = .ok (true, getOwn json key) := by
    intro key hkey
    rcases h key hkey with ⟨habs, hnone⟩ | ⟨hs, b, hb, hty⟩
    · exact validateEntry_of_absent env c key _ habs hnone
    · exact validateEntry_of_same_type env c key _ b hb hs hty
  have hres := loadObject_succeeds env c fs json (fun key hkey => ⟨_, hentry key hkey⟩)
  have hok := loadObject_ok env c fs json _ hres
  have hin : ∀ key, key ∈ ownKeys json →
      lookup (loadObject env c fs json).cfg.data key = some (getOwn json key) := by
    intro key hkey
    obtain ⟨v1, hv1, hl⟩ := hok.1 key hkey
    rw [hentry key hkey] at hv1
    simp only [Except.ok.injEq, Prod.mk.injEq, true_and] at hv1
    rw [hl, hv1]
  refine ⟨hres, hin, hok.2.1, ?_⟩
  intro key hkey
  rw [← lookup_isSome_iff]
  by_cases hmem : key ∈ ownKeys json
  · rw [hin key hmem]; rfl
  · rw [hok.2.1 key hmem, lookup_isSome_iff]
    exact hkey.resolve_right hmem

/-- An example free of inherited names: defaults `{a: 1}`, candidate
`{a: 1, b: "new"}`; the data holds both `a` and `b` afterwards. -/
theorem fromJson_accepts_keys_off_the_chain_example :
    (fromJson demoEnv (storeWith [("a", .num (.fin 1 0))]) noFiles
        (.obj [("a", .num (.fin 1 0)), ("b", .str "new")])).res =
      .ok (.obj [("a", .num (.fin 1 0)), ("b", .str "new")]) ∧
    "a" ∈ (fromJson demoEnv (storeWith [("a", .num (.fin 1 0))]) noFiles
        (.obj [("a", .num (.fin 1 0)), ("b", .str "new")])).cfg.data.map Prod.fst ∧
    "b" ∈ (fromJson demoEnv (storeWith [("a", .num (.fin 1 0))]) noFiles
        (.obj [("a", .num (.fin 1 0)), ("b", .str "new")])).cfg.data.map Prod.fst :=
  have h := fromJson_accepts_keys_off_the_chain demoEnv (storeWith [("a", .num (.fin 1 0))])
    noFiles (.obj [("a", .num (.fin 1 0)), ("b", .str "new")]) (by decide)
    (by
      intro key hkey
      simp only [ownKeys, List.map_cons, List.map_nil, List.mem_cons, List.mem_singleton,
        List.not_mem_nil, or_false] at hkey
      rcases hkey with rfl | rfl
      · exact Or.inr ⟨by decide, .num (.fin 1 0), by decide, by decide⟩
      · exact Or.inl ⟨by decide, by decide⟩)
  ⟨by decide, h.2.2.2 "a" (Or.inl (by decide)), h.2.2.2 "b" (Or.inr (by decide))⟩

/-! ## C7: arrays under `ignoreArray` -/

theorem validateEntry_of_ignored_array (env : Env) (c : Config) (obj2 : Val) (key : String) (xs : List Val)
    (h : c.ignoreArray = true) :
    validateEntry env c obj2 key (.arr xs) = .ok (true, .arr xs) := by
  unfold validateEntry
  simp [h, isArray]

/-- Claim C7. On a store with `ignoreArray = true`, the validation loop body
accepts a key whose value is an array as it is, whatever the base (a scalar, a
mapping, an array, `null`, or no default at all) and whatever the elements; and
after a successful `fromJson` whose payload carries an array under a key,
`data` maps that key to the payload's array unchanged. -/
theorem fromJson_ignores_arrays (env : Env) (c : Config) (fs : FS) (json : Val)
    (key : String) (xs : List Val)
    (hflag : c.ignoreArray = true)
    (hobj : typeOf json ≠ .string)
    (hkey : key ∈ ownKeys json) (harr : getOwn json key = .arr xs) :
    (∀ obj2, validateEntry env c obj2 key (.arr xs) = .ok (true, .arr xs)) ∧
    (∀ ret, (fromJson env c fs json).res = .ok ret →
      lookup (fromJson env c fs json).cfg.data key = some (.arr xs)) := by
  refine ⟨fun obj2 => validateEntry_of_ignored_array env c obj2 key xs hflag, ?_⟩
  intro ret hok
  rw [fromJson_of_not_string env c fs json hobj] at hok ⊢
  obtain ⟨v1, hv1, hl⟩ := (loadObject_ok env c fs json ret hok).1 key hkey
  rw [harr, validateEntry_of_ignored_array env c _ key xs hflag] at hv1
  simp only [Except.ok.injEq, Prod.mk.injEq, true_and] at hv1
  rw [hl, hv1]

/-- Witness for C7: defaults `{a: 1}`, candidate `{a: [1, 2, 3]}`,
`ignoreArray = true`: the load succeeds and `data.a` is the array. -/
theorem fromJson_ignores_arrays_witness :
    (fromJson demoEnv exemptStore noFiles exemptPayload).res = .ok exemptPayload ∧
      lookup (fromJson demoEnv exemptStore noFiles exemptPayload).cfg.data "a" =
        some (.arr [.num (.fin 1 0), .num (.fin 2 0), .num (.fin 3 0)]) :=
  ⟨by decide,
   (fromJson_ignores_arrays demoEnv exemptStore noFiles exemptPayload "a"
      [.num (.fin 1 0), .num (.fin 2 0), .num (.fin 3 0)]
      (by decide) (by decide) (by decide) (by decide)).2 exemptPayload (by decide)⟩

/-! ## C8: when a scalar candidate raises -/

theorem validateProps_error_of_mem (env : Env) (c : Config) (obj2 : Val) (key : String) (v : Val)
    (hentry : ∃ e, validateEntry env c obj2 key v = .error e) (ps : List (String × Val))
    (hmem : (key, v) ∈ ps) : ∃ e, validateProps env c ps obj2 = .error e := by
  induction ps with
  | nil => simp at hmem
  | cons p rest ih =>
    obtain ⟨k, w⟩ := p
    rw [validateProps_cons env]
    cases he : validateEntry env c obj2 k w with
    | error e => exact ⟨e, rfl⟩
    | ok q =>
      obtain ⟨r1, v1⟩ := q
      have hr1 : r1 = true := validateEntry_true env c obj2 k w r1 v1 he
      subst hr1
      rcases List.mem_cons.mp hmem with heq | hrest
      · obtain ⟨e, hentry⟩ := hentry
        simp only [Prod.mk.injEq] at heq
        rw [heq.1, heq.2, he] at hentry
        simp at hentry
      · obtain ⟨e, hrest⟩ := ih hrest
        exact ⟨e, by simp [hrest]⟩

theorem validateObjectTypes_single (env : Env) (c : Config) (obj2 : Val) (key : String) (v : Val) :
    validateObjectTypes env c (.obj [(key, v)]) obj2 =
      match validateEntry env c obj2 key v with
      | .error e => .error e
      | .ok (r, v1) => .ok (r, .obj [(key, v1)]) := by
  rw [validateObjectTypes, validateProps_cons env]
  cases he : validateEntry env c obj2 key v with
  | error e => rfl
  | ok q =>
    obtain ⟨r1, v1⟩ := q
    cases r1 <;> simp [validateProps]

/-- Claim C8. For a key that exists in the base (`obj2[key]` is not `undefined`)
and a scalar candidate value, validating the candidate `{key: v}` raises if and
only if the type of the value differs from the type of the base value and the
coercion rule (`allowParseToNumber`, a string against a number) does not apply;
the error raised is the `Error` whose message names the store, the key and the
type of the base value; and under the same condition every candidate that
carries the key with that value raises. -/
theorem validateObjectTypes_scalar_raises_iff (env : Env) (c : Config) (obj2 : Val) (key : String)
    (v b : Val) (hb : getProp env obj2 key = .ok b) (hdef : typeOf b ≠ .undefined)
    (hs : isScalar v = true) :
    ((∃ e, validateObjectTypes env c (.obj [(key, v)]) obj2 = .error e) ↔
      (typeOf v ≠ typeOf b ∧
        ¬ (c.allowParseToNumber = true ∧ typeOf v = .string ∧ typeOf b = .number))) ∧
    (∀ e, validateObjectTypes env c (.obj [(key, v)]) obj2 = .error e →
      e = .error (c.name ++ " key " ++ key ++ " is not of type " ++ (typeOf b).name)) ∧
    (∀ ps, (key, v) ∈ ps → typeOf v ≠ typeOf b →
      ¬ (c.allowParseToNumber = true ∧ typeOf v = .string ∧ typeOf b = .number) →
      ∃ e, validateObjectTypes env c (.obj ps) obj2 = .error e) := by
  have hentry := validateEntry_of_not_object env c obj2 key v b hb hdef (typeOf_of_isScalar v hs).1
  have hiff : (∃ e, validateEntry env c obj2 key v = .error e) ↔
      (typeOf v ≠ typeOf b ∧
        ¬ (c.allowParseToNumber = true ∧ typeOf v = .string ∧ typeOf b = .number)) := by
    rw [← checkScalar_error_iff c key v b, hentry]
    cases checkScalar c key v b <;> simp
  refine ⟨?_, ?_, ?_⟩
  · rw [← hiff, validateObjectTypes_single env]
    cases validateEntry env c obj2 key v <;> simp
  · intro e he
    rw [validateObjectTypes_single env, hentry] at he
    cases hc : checkScalar c key v b with
    | error e1 =>
      simp only [hc, Except.error.injEq] at he
      rw [← he]
      exact checkScalar_error c key v b e1 hc
    | ok v1 => simp [hc] at he
  · intro ps hmem hty hno
    obtain ⟨e, he⟩ := validateProps_error_of_mem env c obj2 key v (hiff.mpr ⟨hty, hno⟩) ps hmem
    exact ⟨e, by rw [validateObjectTypes, he]⟩

/-- Witness for C8: a string against a numeric default raises when
`allowParseToNumber` is `false`, with the message naming store, key and
expected type, also among other keys; a number against a string default raises
with the default flags. -/
theorem validateObjectTypes_scalar_raises_iff_witness :
    validateObjectTypes demoEnv { storeWith [] with allowParseToNumber := false }
        (.obj [("port", .str "81")]) (.obj [("port", .num (.fin 8081 0))]) =
      .error (.error "config key port is not of type number") ∧
    (∃ e, validateObjectTypes demoEnv { storeWith [] with allowParseToNumber := false }
      (.obj [("host", .str "h"), ("port", .str "81")]) (.obj [("port", .num (.fin 8081 0))]) =
        .error e) ∧
    ∃ e, validateObjectTypes demoEnv (storeWith []) (.obj [("host", .num (.fin 5 0))])
      (.obj [("host", .str "localhost")]) = .error e :=
  have h := validateObjectTypes_scalar_raises_iff demoEnv
    { storeWith [] with allowParseToNumber := false } (.obj [("port", .num (.fin 8081 0))])
    "port" (.str "81") (.num (.fin 8081 0)) (by decide) (by decide) (by decide)
  have h1 := validateObjectTypes_scalar_raises_iff demoEnv (storeWith [])
    (.obj [("host", .str "localhost")]) "host" (.num (.fin 5 0)) (.str "localhost")
    (by decide) (by decide) (by decide)
  ⟨by decide, h.2.2 [("host", .str "h"), ("port", .str "81")] (by decide) (by decide) (by decide),
    h1.1.mpr (by decide)⟩

/-! ## Objects with distinct keys -/

theorem lookup_append (ps qs : List (String × Val)) (k : String) :
    lookup (ps ++ qs) k = (lookup ps k).orElse (fun _ => lookup qs k) := by
  induction ps with
  | nil => simp [lookup]
  | cons p ps ih =>
    obtain ⟨a, w⟩ := p
    by_cases h : a = k <;> simp [lookup, h, ih]

theorem lookup_none_of_distinct (pre : List (String × Val)) (k : String) (v : Val)
    (suf : List (String × Val)) (h : distinctKeys (pre ++ (k, v) :: suf) = true) :
    lookup pre k = none := by
  induction pre with
  | nil => rfl
  | cons p pre ih =>
    obtain ⟨a, w⟩ := p
    rw [List.cons_append, distinctKeys, Bool.and_eq_true, Option.isNone_iff_eq_none] at h
    have hne : a ≠ k := by
      intro heq
      subst heq
      have := h.1
      rw [lookup_append] at this
      cases hl : lookup pre a <;> simp [hl, lookup] at this
    simp only [lookup, hne, if_false]
    exact ih h.2

theorem setOwn_of_lookup_none (ps : List (String × Val)) (k : String) (v : Val)
    (h : lookup ps k = none) : setOwn ps k v = ps ++ [(k, v)] := by
  induction ps with
  | nil => rfl
  | cons p ps ih =>
    obtain ⟨a, w⟩ := p
    by_cases hak : a = k
    · simp [lookup, hak] at h
    · simp only [lookup, hak, if_false] at h
      simp [setOwn, hak, ih h]

theorem setOwn_of_lookup_some (ps : List (String × Val)) (k : String) (v : Val)
    (h : lookup ps k = some v) : setOwn ps k v = ps := by
  induction ps with
  | nil => simp [lookup] at h
  | cons p ps ih =>
    obtain ⟨a, w⟩ := p
    by_cases hak : a = k
    · simp only [lookup, hak, if_true, Option.some.injEq] at h
      simp [setOwn, hak, h]
    · simp only [lookup, hak, if_false] at h
      simp [setOwn, hak, ih h]

theorem foldl_setOwn_rebuilds (full : List (String × Val)) (hd : distinctKeys full = true)
    (suf : List (String × Val)) :
    ∀ (pre : List (String × Val)), full = pre ++ suf →
      (suf.map Prod.fst).foldl (fun d k => setOwn d k (getOwn (.obj full) k)) pre = full := by
  induction suf with
  | nil => intro pre h; simp [h]
  | cons p suf ih =>
    obtain ⟨k, v⟩ := p
    intro pre h
    have hnone : lookup pre k = none := lookup_none_of_distinct pre k v suf (h ▸ hd)
    have hget : getOwn (.obj full) k = v := by
      simp [getOwn, h, lookup_append, hnone, lookup]
    simp only [List.map_cons, List.foldl_cons, hget]
    rw [setOwn_of_lookup_none pre k v hnone]
    exact ih (pre ++ [(k, v)]) (by simp [h])

theorem copyProps_of_distinct (ps : List (String × Val)) (hd : distinctKeys ps = true) :
    copyProps (.obj ps) = ps :=
  foldl_setOwn_rebuilds ps hd ps [] rfl

theorem mergeProps_nil_of_distinct (ps : List (String × Val)) (hd : distinctKeys ps = true) :
    mergeProps [] (.obj ps) = ps :=
  foldl_setOwn_rebuilds ps hd ps [] rfl

theorem mergeProps_self (ps : List (String × Val)) : mergeProps ps (.obj ps) = ps := by
  have hgen : ∀ (keys : List String), (∀ k ∈ keys, k ∈ ps.map Prod.fst) →
      keys.foldl (fun d k => setOwn d k (getOwn (.obj ps) k)) ps = ps := by
    intro keys
    induction keys with
    | nil => intro _; rfl
    | cons k ks ih =>
      intro h
      have hk : (lookup ps k).isSome = true :=
        (lookup_isSome_iff ps k).mpr (h k (List.mem_cons_self _ _))
      obtain ⟨v, hv⟩ := Option.isSome_iff_exists.mp hk
      rw [List.foldl_cons]
      have hstep : setOwn ps k (getOwn (.obj ps) k) = ps := by
        simp only [getOwn, hv, Option.getD_some]
        exact setOwn_of_lookup_some ps k v hv
      rw [hstep]
      exact ih (fun k1 hk1 => h k1 (List.mem_cons_of_mem _ hk1))
  exact hgen _ (fun k hk => hk)

theorem validateProps_unchanged (env : Env) (c : Config) (obj2 : Val) (ps : List (String × Val)) :
    (∀ p ∈ ps, validateEntry env c obj2 p.1 p.2 = .ok (true, p.2)) →
      validateProps env c ps obj2 = .ok (true, ps) := by
  induction ps with
  | nil => intro _; simp [validateProps]
  | cons p rest ih =>
    obtain ⟨key, v⟩ := p
    intro h
    have h1 := h (key, v) (List.mem_cons_self _ _)
    simp only at h1
    rw [validateProps_cons env, h1, ih (fun q hq => h q (List.mem_cons_of_mem _ hq))]

theorem length_eq_zero_iff_empty (s : String) : s.length = 0 ↔ s = "" := by
  constructor
  · intro h
    have : s.data = [] := List.length_eq_zero.mp h
    cases s
    simp_all
  · intro h
    subst h
    rfl

/-! ## Array indices as keys -/

theorem digitChar_toNat (m : Nat) (h : m < 10) : (Nat.digitChar m).toNat - 48 = m := by
  interval_cases m <;> rfl

theorem foldl_toDigitsCore (fuel : Nat) :
    ∀ (n : Nat) (ds : List Char), n < fuel →
      (Nat.toDigitsCore 10 fuel n ds).foldl (fun a ch => 10 * a + (ch.toNat - 48)) 0 =
        ds.foldl (fun a ch => 10 * a + (ch.toNat - 48)) n := by
  induction fuel with
  | zero => intro n ds h; omega
  | succ fuel ih =>
    intro n ds h
    simp only [Nat.toDigitsCore]
    split
    · simp only [List.foldl_cons, Nat.mul_zero, Nat.zero_add]
      rw [digitChar_toNat _ (Nat.mod_lt _ (by decide))]
      congr 1
      omega
    · rw [ih (n / 10) _ (by omega)]
      simp only [List.foldl_cons]
      rw [digitChar_toNat _ (Nat.mod_lt _ (by decide))]
      congr 1
      omega

theorem toString_nat_injective (a b : Nat) (h : toString a = toString b) : a = b := by
  have h1 : Nat.toDigits 10 a = Nat.toDigits 10 b := by
    have := congrArg String.data h
    simpa [toString, Nat.repr, List.asString] using this
  have ha := foldl_toDigitsCore (a + 1) a [] (by omega)
  have hb := foldl_toDigitsCore (b + 1) b [] (by omega)
  simp only [Nat.toDigits] at h1
  rw [h1, hb] at ha
  simpa using ha.symm

theorem indexOfKey_toString (n i : Nat) (h : i < n) : indexOfKey n (toString i) = some i := by
  unfold indexOfKey
  induction n with
  | zero => omega
  | succ n ih =>
    rw [List.range_succ, List.find?_append]
    by_cases hi : i < n
    · rw [ih hi]; rfl
    · have hin : i = n := by omega
      subst hin
      have hnone : (List.range i).find? (fun j => toString j = toString i) = none := by
        rw [List.find?_eq_none]
        intro j hj
        have hlt : j < i := List.mem_range.mp hj
        simp only [decide_eq_true_eq]
        intro heq
        have := toString_nat_injective j i heq
        omega
      rw [hnone]
      simp

theorem getProp_arr_index (env : Env) (xs : List Val) (i : Nat) (h : i < xs.length) :
    getProp env (.arr xs) (toString i) = .ok (xs.getD i .undefined) := by
  simp [getProp, getOwn, indexOfKey_toString xs.length i h]

/-! ## A well-formed value validates against itself -/

theorem distinctKeys_of_WFProps (ps : List (String × Val)) (h : Val.WFProps ps = true) :
    distinctKeys ps = true := by
  induction ps with
  | nil => rfl
  | cons p ps ih =>
    obtain ⟨k, v⟩ := p
    simp only [Val.WFProps, Bool.and_eq_true] at h
    simp only [distinctKeys, Bool.and_eq_true]
    exact ⟨h.1.1, ih h.2⟩

theorem lookup_of_mem_distinct (ps : List (String × Val)) (hd : distinctKeys ps = true)
    (k : String) (v : Val) (hmem : (k, v) ∈ ps) : lookup ps k = some v := by
  induction ps with
  | nil => simp at hmem
  | cons p ps ih =>
    obtain ⟨a, w⟩ := p
    simp only [distinctKeys, Bool.and_eq_true, Option.isNone_iff_eq_none] at hd
    rcases List.mem_cons.mp hmem with heq | hrest
    · simp only [Prod.mk.injEq] at heq
      simp [lookup, heq.1, heq.2]
    · have hne : a ≠ k := by
        intro hak
        subst hak
        have hsome : (lookup ps a).isSome = true :=
          (lookup_isSome_iff ps a).mpr (List.mem_map.mpr ⟨(a, v), hrest, rfl⟩)
        rw [hd.1] at hsome
        simp at hsome
      simp only [lookup, hne, if_false]
      exact ih hd.2 hrest

mutual
theorem validateObjectTypes_self (env : Env) (c : Config) :
    ∀ (v : Val), Val.WF v = true → typeOf v = .object →
      validateObjectTypes env c v v = .ok (true, v)
  | .obj ps, hwf, _ => by
    rw [Val.WF] at hwf
    have hbase : ∀ p ∈ ps, getProp env (.obj ps) p.1 = .ok p.2 := by
      intro p hp
      exact getProp_obj env _ _ _
        (lookup_of_mem_distinct ps (distinctKeys_of_WFProps ps hwf) p.1 p.2 hp)
    rw [validateObjectTypes, validateProps_self env c ps (.obj ps) hwf hbase]
  | .arr xs, hwf, _ => by
    rw [Val.WF] at hwf
    have hbase : ∀ j, j < xs.length →
        getProp env (.arr xs) (toString (0 + j)) = .ok (xs.getD j .undefined) := by
      intro j hj
      rw [Nat.zero_add]
      exact getProp_arr_index env xs j hj
    rw [validateObjectTypes, validateElems_self env c xs 0 (.arr xs) hwf hbase]
  | .null, _, _ => rfl
  | .undefined, _, h => by simp [typeOf] at h
  | .bool _, _, h => by simp [typeOf] at h
  | .num _, _, h => by simp [typeOf] at h
  | .str _, _, h => by simp [typeOf] at h
theorem validateProps_self (env : Env) (c : Config) :
    ∀ (ps : List (String × Val)) (obj2 : Val), Val.WFProps ps = true →
      (∀ p ∈ ps, getProp env obj2 p.1 = .ok p.2) → validateProps env c ps obj2 = .ok (true, ps)
  | [], _, _, _ => by simp [validateProps]
  | (key, v) :: rest, obj2, hwf, hbase => by
    simp only [Val.WFProps, Bool.and_eq_true] at hwf
    have h1 := validateEntry_self env c v obj2 key hwf.1.2 (hbase (key, v) (List.mem_cons_self _ _))
    have h2 := validateProps_self env c rest obj2 hwf.2
      (fun q hq => hbase q (List.mem_cons_of_mem _ hq))
    rw [validateProps_cons env, h1, h2]
theorem validateElems_self (env : Env) (c : Config) :
    ∀ (xs : List Val) (i : Nat) (obj2 : Val), Val.WFList xs = true →
      (∀ j, j < xs.length → getProp env obj2 (toString (i + j)) = .ok (xs.getD j .undefined)) →
      validateElems env c i xs obj2 = .ok (true, xs)
  | [], _, _, _, _ => by simp [validateElems]
  | v :: rest, i, obj2, hwf, hbase => by
    simp only [Val.WFList, Bool.and_eq_true] at hwf
    have h0 := hbase 0 (by simp)
    simp only [Nat.add_zero, List.getD_cons_zero] at h0
    have h1 := validateEntry_self env c v obj2 (toString i) hwf.1 h0
    have h2 := validateElems_self env c rest (i + 1) obj2 hwf.2 (by
      intro j hj
      have := hbase (j + 1) (by simp; omega)
      simp only [List.getD_cons_succ] at this
      rw [show i + 1 + j = i + (j + 1) by omega]
      exact this)
    rw [validateElems_cons env, h1, h2]
theorem validateEntry_self (env : Env) (c : Config) :
    ∀ (v : Val) (obj2 : Val) (key : String), Val.WF v = true → getProp env obj2 key = .ok v →
      validateEntry env c obj2 key v = .ok (true, v)
  | v, obj2, key, hwf, hget => by
    unfold validateEntry
    split
    · rfl
    · rw [hget]
      simp only
      split
      · split
        · rename_i hobj
          exact validateObjectTypes_self env c v hwf hobj
        · simp [checkScalar]
      · rfl
end

/-! ## Loading a structure into a store it cannot conflict with -/

theorem loadObject_self (env : Env) (c : Config) (fs : FS) (hwf : Val.WF (.obj c.data) = true) :
    loadObject env c fs (.obj c.data) = ⟨c, fs, .ok (.obj c.data)⟩ := by
  have hwf1 : Val.WFProps c.data = true := by rw [Val.WF] at hwf; exact hwf
  have hcopy := copyProps_of_distinct c.data (distinctKeys_of_WFProps c.data hwf1)
  have hval := validateObjectTypes_self env c (.obj c.data) hwf rfl
  unfold loadObject validateTypes
  rw [hcopy, hval]
  simp only [mergeProps_self]

theorem loadObject_into_empty (env : Env) (c : Config) (fs : FS) (ps : List (String × Val))
    (hempty : c.data = []) (hd : distinctKeys ps = true)
    (hnone : ∀ p ∈ ps, typeOf (env.inherited (.obj []) p.1) = .undefined) :
    loadObject env c fs (.obj ps) = ⟨{ c with data := ps }, fs, .ok (.obj ps)⟩ := by
  have hval : validateProps env c ps (.obj c.data) = .ok (true, ps) :=
    validateProps_unchanged env c _ ps
      (fun p hp => validateEntry_of_absent env c p.1 p.2 (by rw [hempty]; rfl)
        (by rw [hempty]; exact hnone p hp))
  unfold loadObject validateTypes
  rw [copyProps_of_distinct ps hd, validateObjectTypes, hval]
  simp only [hempty, mergeProps_nil_of_distinct ps hd]

theorem parsePayload_of_valid_text (env : Env) (c : Config) (fs : FS) (text : String)
    (parsed : Val) (htext : text ≠ "") (hparse : env.parse text = .ok parsed)
    (hfix : c.allowJsonFixer = true → ∃ d, env.jsonFix text = .ok (d, false)) :
    parsePayload env c fs (.str text) = (fs, .ok parsed) := by
  have hlen : ¬ text.length = 0 := fun h => htext ((length_eq_zero_iff_empty text).mp h)
  unfold parsePayload
  cases hflag : c.allowJsonFixer with
  | false => simp [hparse]
  | true =>
    obtain ⟨d, hd⟩ := hfix hflag
    simp [hlen, hd, hparse]

theorem fromFile_eq_readAndLoad (env : Env) (c : Config) (fs : FS) (file : Option String) :
    fromFile env c fs file = readAndLoad env (storeInUse c file) fs (pathInUse c file) := by
  unfold fromFile pathInUse storeInUse
  cases file with
  | none => rfl
  | some p => by_cases h : p = "" <;> simp [h]

theorem storeInUse_fields (c : Config) (file : Option String) :
    (storeInUse c file).data = c.data ∧ (storeInUse c file).prettify = c.prettify ∧
      (storeInUse c file).allowJsonFixer = c.allowJsonFixer := by
  unfold storeInUse
  cases file with
  | none => exact ⟨rfl, rfl, rfl⟩
  | some q => by_cases hq : q = "" <;> simp [hq]

/-! ## C9: `save` then `fromFile` -/

theorem readAndLoad_of_valid_file (env : Env) (c : Config) (fs : FS) (path text : String)
    (parsed : Val) (hfile : fs path = some text) (htext : text ≠ "")
    (hparse : env.parse text = .ok parsed)
    (hfix : c.allowJsonFixer = true → ∃ d, env.jsonFix text = .ok (d, false)) :
    readAndLoad env c fs path = loadObject env c fs parsed := by
  have hp := parsePayload_of_valid_text env c fs text parsed htext hparse hfix
  unfold readAndLoad
  simp only [hfile, Option.isNone_some, Bool.false_eq_true, if_false]
  rw [fromJson_of_parsed env c fs (.str text) parsed (by rw [hp]), hp]

/-- Claim C9, at the failing input. The mapping `{constructor: 1}` is written
with `save` to `m.json`: the file holds its serialization, which parses back to
the mapping.  `fromFile("m.json")` on a fresh store, whose defaults are empty,
does not give the mapping back: it raises the type-mismatch error against the
inherited function `Object.prototype.constructor`, and the data stays empty. -/
theorem save_then_fromFile_raises_on_inherited_key :
    (save demoEnv Config.default noFiles (some "m.json") inheritedKeyMapping).1 "m.json" =
      some "\x7b\"constructor\":1\x7d" ∧
    demoEnv.parse "\x7b\"constructor\":1\x7d" = .ok inheritedKeyMapping ∧
    Config.default.data = [] ∧
    (fromFile demoEnv Config.default
        (save demoEnv Config.default noFiles (some "m.json") inheritedKeyMapping).1
        (some "m.json")).res =
      .error (.error "config key constructor is not of type function") ∧
    (fromFile demoEnv Config.default
        (save demoEnv Config.default noFiles (some "m.json") inheritedKeyMapping).1
        (some "m.json")).cfg.data = [] := by
  decide

/-- Round trip of a mapping free of inherited names.  Let `M` be a mapping
(distinct keys, none of them the name of an inherited member) that the
environment serializes to a text it parses back to `M` (`M` is
JSON-representable), the text being one the repair helper reports no change
on.  After `save(path, M)` on any store, `fromFile(path)` on a store with empty
defaults returns `M` and leaves the store with `data` equal to `M`. -/
theorem save_then_fromFile_off_the_chain (env : Env) (w c : Config) (fs : FS) (path : String)
    (ps : List (String × Val))
    (hpath : path ≠ "") (hempty : c.data = []) (hkeys : distinctKeys ps = true)
    (hnone : ∀ p ∈ ps, typeOf (env.inherited (.obj []) p.1) = .undefined)
    (htext : env.stringify (.obj ps) w.prettify ≠ "")
    (hparse : env.parse (env.stringify (.obj ps) w.prettify) = .ok (.obj ps))
    (hfix : c.allowJsonFixer = true →
      ∃ d, env.jsonFix (env.stringify (.obj ps) w.prettify) = .ok (d, false)) :
    (fromFile env c (save env w fs (some path) (.obj ps)).1 (some path)).res = .ok (.obj ps) ∧
      (fromFile env c (save env w fs (some path) (.obj ps)).1 (some path)).cfg.data = ps := by
  have hfile : (save env w fs (some path) (.obj ps)).1 path
      = some (env.stringify (.obj ps) w.prettify) := by
    simp [save, FS.write, typeOf]
  rw [fromFile_eq_readAndLoad]
  simp only [pathInUse, storeInUse, hpath, ne_eq, not_false_eq_true, if_true]
  rw [readAndLoad_of_valid_file env { c with filePath := path, knowExactPath := true } _ path _
      (.obj ps) hfile htext hparse hfix,
    loadObject_into_empty env { c with filePath := path, knowExactPath := true } _ ps hempty hkeys
      hnone]
  exact ⟨rfl, rfl⟩

/-- The mapping `{a: 1, b: "new"}` written to `settings.json` and read back by
a fresh store. -/
theorem save_then_fromFile_off_the_chain_example :
    (fromFile demoEnv Config.default
        (save demoEnv Config.default noFiles (some "settings.json")
          (.obj [("a", .num (.fin 1 0)), ("b", .str "new")])).1 (some "settings.json")).res =
      .ok (.obj [("a", .num (.fin 1 0)), ("b", .str "new")]) ∧
    (fromFile demoEnv Config.default
        (save demoEnv Config.default noFiles (some "settings.json")
          (.obj [("a", .num (.fin 1 0)), ("b", .str "new")])).1 (some "settings.json")).cfg.data =
      [("a", .num (.fin 1 0)), ("b", .str "new")] :=
  save_then_fromFile_off_the_chain demoEnv Config.default Config.default noFiles "settings.json"
    [("a", .num (.fin 1 0)), ("b", .str "new")]
    (by decide) (by decide) (by decide) (by decide) (by decide) (by decide)
    (fun _ => ⟨.obj [("a", .num (.fin 1 0)), ("b", .str "new")], by decide⟩)

/-! ## C10: `fromFile` when the file does not exist -/

/-- Claim C10. Missing-file bootstrap.  On a store whose data is well formed and
JSON-representable (the environment parses its serialization back to it, and
the repair helper reports no change on that text), `fromFile` called when no
file exists at the path in use creates that file with exactly the
serialization of the current data, touches no other file, raises nothing and
returns the data the store held, which it still holds. -/
theorem fromFile_bootstraps_missing_file (env : Env) (c : Config) (fs : FS)
    (file : Option String)
    (hmissing : fs (pathInUse c file) = none)
    (hwf : Val.WF (.obj c.data) = true)
    (htext : env.stringify (.obj c.data) c.prettify ≠ "")
    (hparse : env.parse (env.stringify (.obj c.data) c.prettify) = .ok (.obj c.data))
    (hfix : c.allowJsonFixer = true →
      ∃ d, env.jsonFix (env.stringify (.obj c.data) c.prettify) = .ok (d, false)) :
    (fromFile env c fs file).fs (pathInUse c file) =
        some (env.stringify (.obj c.data) c.prettify) ∧
    (∀ p, p ≠ pathInUse c file → (fromFile env c fs file).fs p = fs p) ∧
    (fromFile env c fs file).res = .ok (.obj c.data) ∧
    (fromFile env c fs file).cfg.data = c.data := by
  have hgen : ∀ (c1 : Config), c1.data = c.data → c1.prettify = c.prettify →
      c1.allowJsonFixer = c.allowJsonFixer →
      readAndLoad env c1 fs (pathInUse c file) =
        ⟨c1, fs.write (pathInUse c file) (env.stringify (.obj c.data) c.prettify),
          .ok (.obj c.data)⟩ := by
    intro c1 hdata hpretty hflag
    have hsave : (save env c1 fs (some (pathInUse c file)) .undefined).1 =
        fs.write (pathInUse c file) (env.stringify (.obj c.data) c.prettify) := by
      simp [save, typeOf, hdata, hpretty]
    have hfile : fs.write (pathInUse c file) (env.stringify (.obj c.data) c.prettify)
        (pathInUse c file) = some (env.stringify (.obj c.data) c.prettify) := by
      simp [FS.write]
    unfold readAndLoad
    simp only [hmissing, Option.isNone_none, if_true, hsave, hfile]
    rw [fromJson_of_parsed env c1 _ (.str _) (.obj c1.data) (by
        rw [parsePayload_of_valid_text env c1 _ _ (.obj c.data) htext hparse
          (fun h => hfix (hflag ▸ h)), hdata]),
      parsePayload_of_valid_text env c1 _ _ (.obj c.data) htext hparse
        (fun h => hfix (hflag ▸ h)),
      loadObject_self env c1 _ (hdata ▸ hwf), hdata]
  obtain ⟨h1, h2, h3⟩ := storeInUse_fields c file
  rw [fromFile_eq_readAndLoad, hgen _ h1 h2 h3]
  refine ⟨by simp [FS.write], ?_, rfl, h1⟩
  intro p hp
  simp [FS.write, hp]

/-- Witness for C10: a fresh store (empty data) and a store holding `{a: 1}`,
no file anywhere; `fromFile()` creates `config.json`. -/
theorem fromFile_bootstraps_missing_file_witness :
    ((fromFile demoEnv Config.default noFiles none).fs "config.json" = some "\x7b\x7d" ∧
      (fromFile demoEnv Config.default noFiles none).res = .ok (.obj [])) ∧
    ((fromFile demoEnv (storeWith [("a", .num (.fin 1 0))]) noFiles none).fs "config.json" =
        some "\x7b\"a\":1\x7d" ∧
      (fromFile demoEnv (storeWith [("a", .num (.fin 1 0))]) noFiles none).res =
        .ok (.obj [("a", .num (.fin 1 0))])) :=
  have h0 := fromFile_bootstraps_missing_file demoEnv Config.default noFiles none
    (by decide) (by decide) (by decide) (by decide) (fun _ => ⟨.obj [], by decide⟩)
  have h1 := fromFile_bootstraps_missing_file demoEnv (storeWith [("a", .num (.fin 1 0))])
    noFiles none (by decide) (by decide) (by decide) (by decide)
    (fun _ => ⟨.obj [("a", .num (.fin 1 0))], by decide⟩)
  ⟨⟨h0.1, h0.2.2.1⟩, ⟨h1.1, h1.2.2.1⟩⟩

/-! ## What the calls do to the fields of the store -/

theorem loadObject_cfg (env : Env) (c : Config) (fs : FS) (json : Val) :
    (loadObject env c fs json).cfg = { c with data := (loadObject env c fs json).cfg.data } ∧
      (loadObject env c fs json).fs = fs := by
  unfold loadObject
  split <;> exact ⟨rfl, rfl⟩

theorem fromJson_cfg (env : Env) (c : Config) (fs : FS) (json : Val) :
    (fromJson env c fs json).cfg = { c with data := (fromJson env c fs json).cfg.data } ∧
      (fromJson env c fs json).fs = (parsePayload env c fs json).1 := by
  unfold fromJson
  cases hp : parsePayload env c fs json with
  | mk fs1 r =>
    cases r with
    | error e => exact ⟨rfl, rfl⟩
    | ok parsed => exact loadObject_cfg env c fs1 parsed

theorem readAndLoad_cfg (env : Env) (c : Config) (fs : FS) (file : String) :
    (readAndLoad env c fs file).cfg = { c with data := (readAndLoad env c fs file).cfg.data } := by
  unfold readAndLoad
  simp only
  split
  · rfl
  · exact (fromJson_cfg env c _ _).1

theorem fromFile_cfg (env : Env) (c : Config) (fs : FS) (file : Option String) :
    (fromFile env c fs file).cfg =
      { storeInUse c file with data := (fromFile env c fs file).cfg.data } := by
  rw [fromFile_eq_readAndLoad]
  exact readAndLoad_cfg env _ fs _

theorem storeInUse_path (c : Config) (file : Option String) :
    (storeInUse c file).filePath = (explicitPath (.fromFile file)).getD c.filePath ∧
      (storeInUse c file).knowExactPath =
        (c.knowExactPath || (explicitPath (.fromFile file)).isSome) ∧
      (storeInUse c file).name = c.name ∧
      (storeInUse c file).prettify = c.prettify ∧
      (storeInUse c file).allowParseToNumber = c.allowParseToNumber ∧
      (storeInUse c file).allowJsonFixer = c.allowJsonFixer ∧
      (storeInUse c file).ignoreArray = c.ignoreArray := by
  unfold storeInUse explicitPath
  cases file with
  | none => simp
  | some q => by_cases hq : q = "" <;> simp [hq]

/-- One call changes `filePath` and the exact-path flag only when it is a
`fromFile` with an explicit path, and never changes the name or a flag. -/
theorem step_fields (env : Env) (s : Config × FS) (op : Op) :
    (step env s op).1.filePath = (explicitPath op).getD s.1.filePath ∧
      (step env s op).1.knowExactPath = (s.1.knowExactPath || (explicitPath op).isSome) ∧
      (step env s op).1.name = s.1.name ∧
      (step env s op).1.prettify = s.1.prettify ∧
      (step env s op).1.allowParseToNumber = s.1.allowParseToNumber ∧
      (step env s op).1.allowJsonFixer = s.1.allowJsonFixer ∧
      (step env s op).1.ignoreArray = s.1.ignoreArray := by
  cases op with
  | fromFile file =>
    have h := fromFile_cfg env s.1 s.2 file
    have hp := storeInUse_path s.1 file
    simp only [step]
    rw [h]
    exact hp
  | fromJson json =>
    have h := (fromJson_cfg env s.1 s.2 json).1
    simp only [step]
    rw [h]
    simp [explicitPath]
  | save file content => simp [step, explicitPath]
  | validateTypes config => simp [step, explicitPath]

theorem run_append (env : Env) (s : Config × FS) (ops : List Op) (op : Op) :
    run env s (ops ++ [op]) = step env (run env s ops) op := by
  simp [run, List.foldl_append]

theorem lastExplicitPath_append (ops : List Op) (op : Op) :
    lastExplicitPath (ops ++ [op]) = (explicitPath op).orElse (fun _ => lastExplicitPath ops) := by
  simp [lastExplicitPath, List.foldl_append]

/-- After any sequence of calls, `filePath` is the path of the most recent
`fromFile` with an explicit path (the initial one when there was none), the
exact path is known exactly when it was known before or such a call occurred,
and the name and the flags are those of the start. -/
theorem run_fields (env : Env) (s : Config × FS) (ops : List Op) :
    (run env s ops).1.filePath = (lastExplicitPath ops).getD s.1.filePath ∧
      (run env s ops).1.knowExactPath = (s.1.knowExactPath || (lastExplicitPath ops).isSome) ∧
      (run env s ops).1.name = s.1.name ∧
      (run env s ops).1.prettify = s.1.prettify ∧
      (run env s ops).1.allowParseToNumber = s.1.allowParseToNumber ∧
      (run env s ops).1.allowJsonFixer = s.1.allowJsonFixer ∧
      (run env s ops).1.ignoreArray = s.1.ignoreArray := by
  induction ops using List.reverseRecOn with
  | nil => simp [run, lastExplicitPath]
  | append_singleton ops op ih =>
    obtain ⟨h1, h2, h3, h4, h5, h6, h7⟩ := ih
    obtain ⟨g1, g2, g3, g4, g5, g6, g7⟩ := step_fields env (run env s ops) op
    rw [run_append, lastExplicitPath_append]
    refine ⟨?_, ?_, g3.trans h3, g4.trans h4, g5.trans h5, g6.trans h6, g7.trans h7⟩
    · rw [g1, h1]
      cases explicitPath op <;> simp
    · rw [g2, h2]
      cases explicitPath op <;> simp

/-! ## C11: when `fromJson` writes a file -/

theorem parsePayload_fs (env : Env) (c : Config) (fs : FS) (json : Val) :
    ((parsePayload env c fs json).1 ≠ fs →
      ∃ text data, json = .str text ∧ c.allowJsonFixer = true ∧
        env.jsonFix (if text.length = 0 then "\x7b\x7d" else text) = .ok (data, true) ∧
        c.knowExactPath = true) ∧
    (∀ text data, json = .str text → c.allowJsonFixer = true →
      env.jsonFix (if text.length = 0 then "\x7b\x7d" else text) = .ok (data, true) →
      c.knowExactPath = true →
      (parsePayload env c fs json).1 = (save env c fs (some c.filePath) data).1) := by
  constructor
  · intro hne
    cases json with
    | str text =>
      unfold parsePayload at hne
      cases hflag : c.allowJsonFixer with
      | false => simp [hflag] at hne
      | true =>
        simp only [hflag, if_true] at hne
        cases hfix : env.jsonFix (if text.length = 0 then "\x7b\x7d" else text) with
        | error e => simp [hfix] at hne
        | ok q =>
          obtain ⟨data, changed⟩ := q
          cases changed with
          | false => simp [hfix] at hne
          | true =>
            cases hknow : c.knowExactPath with
            | false => simp [hfix, hknow] at hne
            | true => exact ⟨text, data, rfl, rfl, hfix, rfl⟩
    | undefined => exact absurd rfl hne
    | null => exact absurd rfl hne
    | bool b => exact absurd rfl hne
    | num n => exact absurd rfl hne
    | arr xs => exact absurd rfl hne
    | obj ps => exact absurd rfl hne
    | func f => exact absurd rfl hne
  · intro text data hjson hflag hfix hknow
    subst hjson
    unfold parsePayload
    simp [hflag, hfix, hknow]

/-- Claim C11. On a store reached by any sequence of calls from one on which
no exact path was known, a `fromJson` call changes the file system only if the
payload is text, `allowJsonFixer` is true, the repair helper reports a change
and a `fromFile` with an explicit path occurred before; in that case it is the
file system with the one file at `filePath` (the path of the most recent such
`fromFile`) rewritten, to the serialization of the repaired structure.  In
every other case every file is as it was. -/
theorem fromJson_writes_only_repaired_text (env : Env) (c0 : Config) (fs0 : FS)
    (ops : List Op) (c : Config) (fs : FS) (json : Val)
    (hfresh : c0.knowExactPath = false) (hrun : run env (c0, fs0) ops = (c, fs)) :
    ((fromJson env c fs json).fs ≠ fs →
      ∃ text data, json = .str text ∧ c.allowJsonFixer = true ∧
        env.jsonFix (if text.length = 0 then "\x7b\x7d" else text) = .ok (data, true) ∧
        (lastExplicitPath ops).isSome = true) ∧
    (∀ text data, json = .str text → c.allowJsonFixer = true →
      env.jsonFix (if text.length = 0 then "\x7b\x7d" else text) = .ok (data, true) →
      (lastExplicitPath ops).isSome = true → typeOf data ≠ .undefined →
      (fromJson env c fs json).fs = fs.write c.filePath (env.stringify data c.prettify) ∧
        some c.filePath = lastExplicitPath ops) := by
  have hfields := run_fields env (c0, fs0) ops
  rw [hrun] at hfields
  obtain ⟨hpath, hknow, -⟩ := hfields
  simp only [hfresh, Bool.false_or] at hknow
  rw [(fromJson_cfg env c fs json).2]
  obtain ⟨h1, h2⟩ := parsePayload_fs env c fs json
  constructor
  · intro hne
    obtain ⟨text, data, hjson, hflag, hfix, hk⟩ := h1 hne
    exact ⟨text, data, hjson, hflag, hfix, hknow ▸ hk⟩
  · intro text data hjson hflag hfix hlast hdef
    rw [h2 text data hjson hflag hfix (hknow.trans hlast)]
    constructor
    · simp [save, hdef]
    · rw [hpath]
      obtain ⟨p, hp⟩ := Option.isSome_iff_exists.mp hlast
      simp [hp]

/-- Witness for C11: after `fromFile("cfg.json")` on a fresh store, a malformed
text that the helper repairs to `{a: true}` is written back to `cfg.json`. -/
theorem fromJson_writes_only_repaired_text_witness :
    (fromJson demoEnv (run demoEnv (Config.default, noFiles) [.fromFile (some "cfg.json")]).1
        (run demoEnv (Config.default, noFiles) [.fromFile (some "cfg.json")]).2
        (.str "\x7b\"a\":true,\x7d")).fs =
      (run demoEnv (Config.default, noFiles) [.fromFile (some "cfg.json")]).2.write
        (run demoEnv (Config.default, noFiles) [.fromFile (some "cfg.json")]).1.filePath
        (demoEnv.stringify (.obj [("a", .bool true)]) false) ∧
    some (run demoEnv (Config.default, noFiles) [.fromFile (some "cfg.json")]).1.filePath =
      some "cfg.json" :=
  (fromJson_writes_only_repaired_text demoEnv Config.default noFiles
    [.fromFile (some "cfg.json")] _ _ (.str "\x7b\"a\":true,\x7d") (by decide) rfl).2
    "\x7b\"a\":true,\x7d" (.obj [("a", .bool true)]) rfl (by decide) (by decide) (by decide)
    (by decide)

/-! ## C12: `save` -/

/-- Claim C12. `save(path, content)` returns the serialization of `content`
when it is provided and of the store's data otherwise, with the store's
`prettify` flag; `path` defaults to `filePath`, which is the path of the most
recent `fromFile` with an explicit path, else the initial `name + ".json"`;
after the call the file at that path holds exactly the string returned, every
other file is as it was, and the store is unchanged. -/
theorem save_writes_serialization (env : Env) (c0 : Config) (fs0 : FS) (ops : List Op)
    (c : Config) (fs : FS) (file : Option String) (content : Val)
    (hnew : c0.filePath = c0.name ++ ".json") (hrun : run env (c0, fs0) ops = (c, fs)) :
    (save env c fs file content).2 =
        env.stringify (if typeOf content = .undefined then .obj c.data else content) c.prettify ∧
    (save env c fs file content).1 (file.getD c.filePath) = some (save env c fs file content).2 ∧
    (∀ p, p ≠ file.getD c.filePath → (save env c fs file content).1 p = fs p) ∧
    (step env (c, fs) (.save file content)).1 = c ∧
    c.filePath = (lastExplicitPath ops).getD (c.name ++ ".json") := by
  have hfields := run_fields env (c0, fs0) ops
  rw [hrun] at hfields
  obtain ⟨hpath, -, hname, -⟩ := hfields
  refine ⟨rfl, by simp [save, FS.write], ?_, rfl, ?_⟩
  · intro p hp
    simp [save, FS.write, hp]
  · rw [hpath, hname, hnew]

/-- Witness for C12: on a fresh store holding `{a: 1}`, `save()` writes the
serialization of the data to `config.json` and `save("x.json", {})` writes the
content given. -/
theorem save_writes_serialization_witness :
    (save demoEnv (storeWith [("a", .num (.fin 1 0))]) noFiles none .undefined).2 =
        "\x7b\"a\":1\x7d" ∧
      (save demoEnv (storeWith [("a", .num (.fin 1 0))]) noFiles none .undefined).1 "config.json" =
        some "\x7b\"a\":1\x7d" ∧
      (save demoEnv (storeWith [("a", .num (.fin 1 0))]) noFiles (some "x.json") (.obj [])).1
        "x.json" = some "\x7b\x7d" :=
  have h := save_writes_serialization demoEnv (storeWith [("a", .num (.fin 1 0))]) noFiles []
    (storeWith [("a", .num (.fin 1 0))]) noFiles none .undefined rfl rfl
  have h1 := save_writes_serialization demoEnv (storeWith [("a", .num (.fin 1 0))]) noFiles []
    (storeWith [("a", .num (.fin 1 0))]) noFiles (some "x.json") (.obj []) rfl rfl
  ⟨h.1.trans (by decide), h.2.1.trans (by decide), h1.2.1.trans (by decide)⟩

/-! ## C14: the path of the backing file -/

/-- Claim C14, as amended. `filePath` starts as `name + ".json"` and is
overridden by every `fromFile` call with an explicit path: after any sequence
of calls on a store it is the path of the most recent such call, or the
initial path when there was none; and the exact path is known exactly when
such a call has occurred. -/
theorem filePath_is_last_explicit_path (env : Env) (name : String)
    (prettify allowParseToNumber allowJsonFixer ignoreArray : Bool) (fs0 : FS) (ops : List Op) :
    (Config.new name prettify allowParseToNumber allowJsonFixer ignoreArray).filePath =
        name ++ ".json" ∧
    (run env (Config.new name prettify allowParseToNumber allowJsonFixer ignoreArray, fs0)
        ops).1.filePath = (lastExplicitPath ops).getD (name ++ ".json") ∧
    (run env (Config.new name prettify allowParseToNumber allowJsonFixer ignoreArray, fs0)
        ops).1.knowExactPath = (lastExplicitPath ops).isSome := by
  obtain ⟨h1, h2, -⟩ := run_fields env
    (Config.new name prettify allowParseToNumber allowJsonFixer ignoreArray, fs0) ops
  exact ⟨rfl, h1, by simpa [Config.new] using h2⟩

/-- Counterexample to C14 as stated: `filePath` changes twice, at the first
`fromFile` with an explicit path and again at the second. -/
theorem filePath_changes_twice :
    Config.default.filePath = "config.json" ∧
      (run demoEnv (Config.default, noFiles) [.fromFile (some "a.json")]).1.filePath =
        "a.json" ∧
      (run demoEnv (Config.default, noFiles)
        [.fromFile (some "a.json"), .fromFile (some "b.json")]).1.filePath = "b.json" := by
  decide

/-! ## C13: the keys of the data after a load -/

/-- What the merge loop does to the keys: after a successful `fromJson(json)`
the data holds every key of the given config, a key that was in the data
before the call and is absent from the given config is still present with the
value it had, and the data holds no other key. -/
theorem fromJson_keeps_absent_keys (env : Env) (c : Config) (fs : FS) (json parsed ret : Val)
    (hparse : (parsePayload env c fs json).2 = .ok parsed)
    (hok : (fromJson env c fs json).res = .ok ret) :
    (∀ key, key ∈ ownKeys parsed → key ∈ (fromJson env c fs json).cfg.data.map Prod.fst) ∧
    (∀ key, key ∈ c.data.map Prod.fst → key ∉ ownKeys parsed →
      key ∈ (fromJson env c fs json).cfg.data.map Prod.fst ∧
        lookup (fromJson env c fs json).cfg.data key = lookup c.data key) ∧
    (∀ key, key ∈ (fromJson env c fs json).cfg.data.map Prod.fst →
      key ∈ ownKeys parsed ∨ key ∈ c.data.map Prod.fst) := by
  rw [fromJson_of_parsed env c fs json parsed hparse] at hok ⊢
  obtain ⟨hin, hout, -⟩ := loadObject_ok env c _ parsed ret hok
  refine ⟨?_, ?_, ?_⟩
  · intro key hkey
    obtain ⟨v1, -, hl⟩ := hin key hkey
    rw [← lookup_isSome_iff, hl]
    rfl
  · intro key hdata hkey
    refine ⟨?_, hout key hkey⟩
    rw [← lookup_isSome_iff, hout key hkey, lookup_isSome_iff]
    exact hdata
  · intro key hkey
    by_cases hmem : key ∈ ownKeys parsed
    · exact Or.inl hmem
    · rw [← lookup_isSome_iff, hout key hmem, lookup_isSome_iff] at hkey
      exact Or.inr hkey

/-- Claim C13, at the failing input. The data is `{a: 1, keep: true}` and the
given config is `{a: 2}`.  The call succeeds, and the data is not overwritten
with the given config: the key `keep`, absent from the given config, is still
in the data, which is `{a: 2, keep: true}` and not `{a: 2}`. -/
theorem fromJson_does_not_drop_keys :
    (fromJson demoEnv (storeWith [("a", .num (.fin 1 0)), ("keep", .bool true)]) noFiles
        (.obj [("a", .num (.fin 2 0))])).res =
      .ok (.obj [("a", .num (.fin 2 0)), ("keep", .bool true)]) ∧
    "keep" ∉ ownKeys (.obj [("a", .num (.fin 2 0))]) ∧
    "keep" ∈ (fromJson demoEnv (storeWith [("a", .num (.fin 1 0)), ("keep", .bool true)]) noFiles
        (.obj [("a", .num (.fin 2 0))])).cfg.data.map Prod.fst ∧
    (fromJson demoEnv (storeWith [("a", .num (.fin 1 0)), ("keep", .bool true)]) noFiles
        (.obj [("a", .num (.fin 2 0))])).cfg.data ≠ [("a", .num (.fin 2 0))] := by
  decide

/-- The merge on the same store and config: `keep` keeps its value. -/
theorem fromJson_keeps_absent_keys_example :
    "keep" ∈ (fromJson demoEnv (storeWith [("a", .num (.fin 1 0)), ("keep", .bool true)]) noFiles
        (.obj [("a", .num (.fin 2 0))])).cfg.data.map Prod.fst ∧
      lookup (fromJson demoEnv (storeWith [("a", .num (.fin 1 0)), ("keep", .bool true)]) noFiles
        (.obj [("a", .num (.fin 2 0))])).cfg.data "keep" =
        lookup (storeWith [("a", .num (.fin 1 0)), ("keep", .bool true)]).data "keep" :=
  (fromJson_keeps_absent_keys demoEnv (storeWith [("a", .num (.fin 1 0)), ("keep", .bool true)])
    noFiles (.obj [("a", .num (.fin 2 0))]) (.obj [("a", .num (.fin 2 0))])
    (.obj [("a", .num (.fin 2 0)), ("keep", .bool true)]) (by decide) (by decide)).2.1
    "keep" (by decide) (by decide)

/-! ## C16: `validateObjectTypes` returns `true` or raises -/

/-- Claim C16. `validateObjectTypes` is defined on every pair of values and
never returns `false`: a call raises or returns `true`, and so does
`validateTypes`.  Consequently `fromJson` never returns `undefined`: a call
raises or returns the store's data. -/
theorem validateObjectTypes_true_or_raises (env : Env) (c : Config) (fs : FS)
    (obj1 obj2 json : Val) :
    ((∃ e, validateObjectTypes env c obj1 obj2 = .error e) ∨
      ∃ out, validateObjectTypes env c obj1 obj2 = .ok (true, out)) ∧
    ((∃ e, validateTypes env c obj1 = .error e) ∨ ∃ out, validateTypes env c obj1 = .ok (true, out)) ∧
    ((∃ e, (fromJson env c fs json).res = .error e) ∨
      (fromJson env c fs json).res = .ok (.obj (fromJson env c fs json).cfg.data)) := by
  have hval : ∀ (a b : Val), (∃ e, validateObjectTypes env c a b = .error e) ∨
      ∃ out, validateObjectTypes env c a b = .ok (true, out) := by
    intro a b
    cases h : validateObjectTypes env c a b with
    | error e => exact Or.inl ⟨e, rfl⟩
    | ok q =>
      obtain ⟨r, out⟩ := q
      have hr := validateObjectTypes_true env c a b r out h
      subst hr
      exact Or.inr ⟨out, rfl⟩
  refine ⟨hval obj1 obj2, hval obj1 (.obj c.data), ?_⟩
  unfold fromJson
  cases hp : parsePayload env c fs json with
  | mk fs1 r =>
    cases r with
    | error e => exact Or.inl ⟨e, rfl⟩
    | ok parsed =>
      simp only
      unfold loadObject validateTypes
      rcases hval (.obj (copyProps parsed)) (.obj c.data) with ⟨e, he⟩ | ⟨out, hout⟩
      · exact Or.inl ⟨e, by rw [he]⟩
      · exact Or.inr (by rw [hout])

/-! ## C18: repaired text is saved before validation -/

/-- Claim C18. For a text payload on which the repair helper reports a change,
with `allowJsonFixer = true` and the exact path known, the file at `filePath`
holds the serialization of the repaired structure after the call, and no other
file has changed, whatever the call then does: also when it raises, in which
case the store is as it was. -/
theorem fromJson_saves_repair_before_validation (env : Env) (c : Config) (fs : FS)
    (text : String) (data : Val)
    (hflag : c.allowJsonFixer = true) (hknow : c.knowExactPath = true)
    (hfix : env.jsonFix (if text.length = 0 then "\x7b\x7d" else text) = .ok (data, true))
    (hdef : typeOf data ≠ .undefined) :
    (fromJson env c fs (.str text)).fs c.filePath = some (env.stringify data c.prettify) ∧
    (∀ p, p ≠ c.filePath → (fromJson env c fs (.str text)).fs p = fs p) ∧
    (∀ e, (fromJson env c fs (.str text)).res = .error e →
      (fromJson env c fs (.str text)).cfg = c) := by
  rw [(fromJson_cfg env c fs (.str text)).2,
    (parsePayload_fs env c fs (.str text)).2 text data rfl hflag hfix hknow]
  refine ⟨by simp [save, FS.write, hdef], ?_, ?_⟩
  · intro p hp
    simp [save, FS.write, hp]
  · intro e he
    unfold fromJson at he ⊢
    cases hp : parsePayload env c fs (.str text) with
    | mk fs1 r =>
      cases r with
      | error e1 => rfl
      | ok parsed =>
        simp only [hp] at he ⊢
        exact (loadObject_error env c fs1 parsed e he).1

/-- Witness for C18: the text is repaired to `{a: true}`, which is written to
`cfg.json`; validation then raises because `a` is a number in the data, and the
data is unchanged. -/
theorem fromJson_saves_repair_before_validation_witness :
    (fromJson demoEnv knownPathStore noFiles (.str "\x7b\"a\":true,\x7d")).res =
        .error (.error "config key a is not of type number") ∧
      (fromJson demoEnv knownPathStore noFiles (.str "\x7b\"a\":true,\x7d")).fs "cfg.json" =
        some "\x7b\"a\":true\x7d" ∧
      (fromJson demoEnv knownPathStore noFiles (.str "\x7b\"a\":true,\x7d")).cfg =
        knownPathStore :=
  have h := fromJson_saves_repair_before_validation demoEnv knownPathStore noFiles
    "\x7b\"a\":true,\x7d" (.obj [("a", .bool true)]) (by decide) (by decide) (by decide)
    (by decide)
  ⟨by decide, h.1.trans (by decide),
    h.2.2 (.error "config key a is not of type number") (by decide)⟩

/-! ## C15: a mismatch at any depth -/

theorem mem_of_lookup (ps : List (String × Val)) (k : String) (v : Val)
    (h : lookup ps k = some v) : (k, v) ∈ ps := by
  induction ps with
  | nil => simp [lookup] at h
  | cons p ps ih =>
    obtain ⟨a, w⟩ := p
    by_cases hak : a = k
    · simp only [lookup, hak, if_true, Option.some.injEq] at h
      simp [hak, h]
    · simp only [lookup, hak, if_false] at h
      exact List.mem_cons_of_mem _ (ih h)

theorem validateEntry_raises_on_path (env : Env) (c : Config) (v b : Val)
    (hv : isScalar v = true) (hb : isScalar b = true) (hty : typeOf v ≠ typeOf b)
    (hno : ¬ (c.allowParseToNumber = true ∧ typeOf v = .string ∧ typeOf b = .number))
    (path : List String) :
    ∀ (key : String) (cand base w w2 : Val),
      atPath path w = some v → atPath path w2 = some b → getProp env base key = .ok w2 →
      cand = w → ∃ e, validateEntry env c base key cand = .error e := by
  induction path with
  | nil =>
    intro key cand base w w2 hw hw2 hget hcand
    simp only [atPath, Option.some.injEq] at hw hw2
    subst hw hw2 hcand
    rw [validateEntry_of_not_object env c base key cand w2 hget (typeOf_of_isScalar w2 hb).2
      (typeOf_of_isScalar cand hv).1]
    obtain ⟨e, he⟩ := (checkScalar_error_iff c key cand w2).mpr ⟨hty, hno⟩
    exact ⟨e, by rw [he]⟩
  | cons k rest ih =>
    intro key cand base w w2 hw hw2 hget hcand
    subst hcand
    cases cand with
    | obj ps =>
      cases w2 with
      | obj qs =>
        simp only [atPath] at hw hw2
        cases hl : lookup ps k with
        | none => simp [hl] at hw
        | some w1 =>
          cases hl2 : lookup qs k with
          | none => simp [hl2] at hw2
          | some w3 =>
            simp only [hl] at hw
            simp only [hl2] at hw2
            have hentry := ih k w1 (.obj qs) w1 w3 hw hw2 (getProp_obj env _ _ _ hl2) rfl
            obtain ⟨e, he⟩ := validateProps_error_of_mem env c (.obj qs) k w1 hentry ps
              (mem_of_lookup ps k w1 hl)
            refine ⟨e, ?_⟩
            unfold validateEntry
            simp [isArray, hget, typeOf, validateObjectTypes, he]
      | undefined => simp [atPath] at hw2
      | null => simp [atPath] at hw2
      | bool _ => simp [atPath] at hw2
      | num _ => simp [atPath] at hw2
      | str _ => simp [atPath] at hw2
      | arr _ => simp [atPath] at hw2
      | func _ => simp [atPath] at hw2
    | undefined => simp [atPath] at hw
    | null => simp [atPath] at hw
    | bool _ => simp [atPath] at hw
    | num _ => simp [atPath] at hw
    | str _ => simp [atPath] at hw
    | arr _ => simp [atPath] at hw
    | func _ => simp [atPath] at hw

/-- A candidate and a base that hold scalars of different types, to which the
coercion rule does not apply, at the end of the same chain of keys through
nested mappings: validation of the candidate raises. -/
theorem validateObjectTypes_raises_on_path (env : Env) (c : Config) (cand base v b : Val)
    (key : String) (rest : List String)
    (hcand : atPath (key :: rest) cand = some v) (hbase : atPath (key :: rest) base = some b)
    (hv : isScalar v = true) (hb : isScalar b = true) (hty : typeOf v ≠ typeOf b)
    (hno : ¬ (c.allowParseToNumber = true ∧ typeOf v = .string ∧ typeOf b = .number)) :
    ∃ e, validateObjectTypes env c cand base = .error e := by
  cases cand with
  | obj ps =>
    cases base with
    | obj qs =>
      simp only [atPath] at hcand hbase
      cases hl : lookup ps key with
      | none => simp [hl] at hcand
      | some w1 =>
        cases hl2 : lookup qs key with
        | none => simp [hl2] at hbase
        | some w3 =>
          simp only [hl] at hcand
          simp only [hl2] at hbase
          have hentry := validateEntry_raises_on_path env c v b hv hb hty hno rest key w1 (.obj qs)
            w1 w3 hcand hbase (getProp_obj env _ _ _ hl2) rfl
          obtain ⟨e, he⟩ := validateProps_error_of_mem env c (.obj qs) key w1 hentry ps
            (mem_of_lookup ps key w1 hl)
          exact ⟨e, by rw [validateObjectTypes, he]⟩
    | undefined => simp [atPath] at hbase
    | null => simp [atPath] at hbase
    | bool _ => simp [atPath] at hbase
    | num _ => simp [atPath] at hbase
    | str _ => simp [atPath] at hbase
    | arr _ => simp [atPath] at hbase
    | func _ => simp [atPath] at hbase
  | undefined => simp [atPath] at hcand
  | null => simp [atPath] at hcand
  | bool _ => simp [atPath] at hcand
  | num _ => simp [atPath] at hcand
  | str _ => simp [atPath] at hcand
  | arr _ => simp [atPath] at hcand
  | func _ => simp [atPath] at hcand

theorem validateEntry_of_object (env : Env) (c : Config) (obj2 : Val) (key : String) (v b2 : Val)
    (harr : isArray v = false) (hget : getProp env obj2 key = .ok b2)
    (hdef : typeOf b2 ≠ .undefined) (hobj : typeOf v = .object) :
    validateEntry env c obj2 key v = validateObjectTypes env c v b2 := by
  unfold validateEntry
  simp [harr, hget, hdef, hobj]

theorem validateEntry_chain_error (env : Env) (c : Config) (v b : Val)
    (hv : isScalar v = true) (hb : isScalar b = true) (hty : typeOf v ≠ typeOf b)
    (hno : ¬ (c.allowParseToNumber = true ∧ typeOf v = .string ∧ typeOf b = .number))
    (rest : List String) :
    ∀ (key : String) (base w2 : Val), atPath rest w2 = some b → getProp env base key = .ok w2 →
      validateEntry env c base key (chainOf rest v) =
        .error (.error (mismatchMessage c.name (rest.getLastD key) (typeOf b))) := by
  induction rest with
  | nil =>
    intro key base w2 hw2 hget
    simp only [atPath, Option.some.injEq] at hw2
    subst hw2
    simp only [chainOf, List.getLastD_nil]
    rw [validateEntry_of_not_object env c base key v w2 hget (typeOf_of_isScalar w2 hb).2
      (typeOf_of_isScalar v hv).1]
    obtain ⟨e, he⟩ := (checkScalar_error_iff c key v w2).mpr ⟨hty, hno⟩
    rw [he, checkScalar_error c key v w2 e he]
  | cons k rest ih =>
    intro key base w2 hw2 hget
    cases w2 with
    | obj qs =>
      simp only [atPath] at hw2
      cases hl2 : lookup qs k with
      | none => simp [hl2] at hw2
      | some w3 =>
        simp only [hl2] at hw2
        have hentry := ih k (.obj qs) w3 hw2 (getProp_obj env _ _ _ hl2)
        rw [List.getLastD_cons]
        show validateEntry env c base key (.obj [(k, chainOf rest v)]) = _
        rw [validateEntry_of_object env c base key (.obj [(k, chainOf rest v)]) (.obj qs) rfl hget
            (by simp [typeOf]) rfl,
          validateObjectTypes_single env, hentry]
    | undefined => simp [atPath] at hw2
    | null => simp [atPath] at hw2
    | bool _ => simp [atPath] at hw2
    | num _ => simp [atPath] at hw2
    | str _ => simp [atPath] at hw2
    | arr _ => simp [atPath] at hw2
    | func _ => simp [atPath] at hw2

/-- A candidate that holds only the chain raises the type-mismatch error for
the last key of the chain, with the type of the base value at its end. -/
theorem validateObjectTypes_chain_error (env : Env) (c : Config) (base v b : Val)
    (key : String) (rest : List String)
    (hbase : atPath (key :: rest) base = some b)
    (hv : isScalar v = true) (hb : isScalar b = true) (hty : typeOf v ≠ typeOf b)
    (hno : ¬ (c.allowParseToNumber = true ∧ typeOf v = .string ∧ typeOf b = .number)) :
    validateObjectTypes env c (chainOf (key :: rest) v) base =
      .error (.error (mismatchMessage c.name (rest.getLastD key) (typeOf b))) := by
  cases base with
  | obj qs =>
    simp only [atPath] at hbase
    cases hl2 : lookup qs key with
    | none => simp [hl2] at hbase
    | some w3 =>
      simp only [hl2] at hbase
      have hentry := validateEntry_chain_error env c v b hv hb hty hno rest key (.obj qs) w3 hbase
        (getProp_obj env _ _ _ hl2)
      simp only [chainOf]
      rw [validateObjectTypes_single env, hentry]
  | undefined => simp [atPath] at hbase
  | null => simp [atPath] at hbase
  | bool _ => simp [atPath] at hbase
  | num _ => simp [atPath] at hbase
  | str _ => simp [atPath] at hbase
  | arr _ => simp [atPath] at hbase
  | func _ => simp [atPath] at hbase

/-- The failing input of C15.  Base and candidate hold the chain `a.b` with a
number against a boolean, so the claim asks for the type-mismatch error; the
key `z`, visited first, sends the candidate's mapping against the default
`null`, and the read `obj2[key]` on `null` throws a `TypeError` instead.  On the
candidate that holds only the chain (the claim's own example) the
type-mismatch error is raised. -/
theorem validateTypes_typeError_on_null_default :
    atPath ["a", "b"] nullDefaultPayload = some (.bool true) ∧
      atPath ["a", "b"] (.obj nullDefaultStore.data) = some (.num (.fin 1 0)) ∧
      validateTypes demoEnv nullDefaultStore nullDefaultPayload = .error .typeError ∧
      (fromJson demoEnv nullDefaultStore noFiles nullDefaultPayload).res = .error .typeError ∧
      validateTypes demoEnv (storeWith [("a", .obj [("b", .num (.fin 1 0))])])
        (.obj [("a", .obj [("b", .bool true)])]) =
        .error (.error "config key b is not of type number") := by
  decide

/-! ## C17: loading the same payload twice -/

theorem distinctKeys_iff_nodup (ps : List (String × Val)) :
    distinctKeys ps = true ↔ (ps.map Prod.fst).Nodup := by
  induction ps with
  | nil => simp [distinctKeys]
  | cons p ps ih =>
    obtain ⟨k, v⟩ := p
    simp only [distinctKeys, Bool.and_eq_true, List.map_cons, List.nodup_cons, ih]
    constructor
    · rintro ⟨h1, h2⟩
      refine ⟨?_, h2⟩
      rw [← lookup_isSome_iff]
      simp [Option.isNone_iff_eq_none.mp h1]
    · rintro ⟨h1, h2⟩
      refine ⟨?_, h2⟩
      rw [← lookup_isSome_iff] at h1
      cases hl : lookup ps k <;> simp_all

theorem keys_of_entryOk (env : Env) (c : Config) (obj2 : Val) (ps : List (String × Val)) :
    ∀ (out : List (String × Val)), List.Forall₂ (EntryOk env c obj2) ps out →
      out.map Prod.fst = ps.map Prod.fst := by
  induction ps with
  | nil => intro out h; cases h; rfl
  | cons p rest ih =>
    intro out h
    cases h with
    | cons hpq hrest => simp [ih _ hrest, hpq.1]

theorem foldl_setOwn_fixed (f : String → Val) (d : List (String × Val)) (keys : List String)
    (h : ∀ k ∈ keys, lookup d k = some (f k)) :
    keys.foldl (fun d k => setOwn d k (f k)) d = d := by
  induction keys with
  | nil => rfl
  | cons k ks ih =>
    rw [List.foldl_cons, setOwn_of_lookup_some d k (f k) (h k (List.mem_cons_self _ _))]
    exact ih (fun k1 hk1 => h k1 (List.mem_cons_of_mem _ hk1))

theorem typeOf_validateObjectTypes (env : Env) (c : Config) (v b v1 : Val) (r : Bool)
    (h : validateObjectTypes env c v b = .ok (r, v1)) : typeOf v1 = typeOf v := by
  cases v with
  | obj ps =>
    rw [validateObjectTypes] at h
    split at h
    · simp at h
    · simp only [Except.ok.injEq, Prod.mk.injEq] at h
      rw [← h.2]; rfl
  | arr xs =>
    rw [validateObjectTypes] at h
    split at h
    · simp at h
    · simp only [Except.ok.injEq, Prod.mk.injEq] at h
      rw [← h.2]; rfl
  | str s =>
    rw [validateObjectTypes] at h
    split at h
    · simp at h
    · simp only [Except.ok.injEq, Prod.mk.injEq] at h
      rw [← h.2]
  | undefined => simp [validateObjectTypes] at h; rw [← h.2]
  | null => simp [validateObjectTypes] at h; rw [← h.2]
  | bool _ => simp [validateObjectTypes] at h; rw [← h.2]
  | num _ => simp [validateObjectTypes] at h; rw [← h.2]
  | func _ => simp [validateObjectTypes] at h; rw [← h.2]

mutual
theorem validateObjectTypes_again (env : Env) (c c1 : Config)
    (hign : c1.ignoreArray = c.ignoreArray) (hnum : c1.allowParseToNumber = c.allowParseToNumber) :
    ∀ (v b v1 : Val), Val.WF v = true → validateObjectTypes env c v b = .ok (true, v1) →
      typeOf v = .object → validateObjectTypes env c1 v v1 = .ok (true, v1)
  | .obj ps, b, v1, hwf, h, _ => by
    rw [Val.WF] at hwf
    rw [validateObjectTypes] at h
    cases hp : validateProps env c ps b with
    | error e => simp [hp] at h
    | ok q =>
      obtain ⟨r, ps1⟩ := q
      simp only [hp, Except.ok.injEq, Prod.mk.injEq] at h
      obtain ⟨hr, hv1⟩ := h
      subst hr hv1
      have hkeys := keys_of_entryOk env c b ps ps1 (validateProps_ok env c b ps _ _ hp)
      have hd1 : distinctKeys ps1 = true := by
        rw [distinctKeys_iff_nodup, hkeys, ← distinctKeys_iff_nodup]
        exact distinctKeys_of_WFProps ps hwf
      have hbase : ∀ q ∈ ps1, getProp env (.obj ps1) q.1 = .ok q.2 := by
        intro q hq
        exact getProp_obj env _ _ _ (lookup_of_mem_distinct ps1 hd1 q.1 q.2 hq)
      rw [validateObjectTypes, validateProps_again env c c1 hign hnum ps b ps1 (.obj ps1) hwf hp hbase]
  | .arr xs, b, v1, hwf, h, _ => by
    rw [Val.WF] at hwf
    rw [validateObjectTypes] at h
    cases hp : validateElems env c 0 xs b with
    | error e => simp [hp] at h
    | ok q =>
      obtain ⟨r, xs1⟩ := q
      simp only [hp, Except.ok.injEq, Prod.mk.injEq] at h
      obtain ⟨hr, hv1⟩ := h
      subst hr hv1
      have hbase : ∀ j, j < xs1.length →
          getProp env (.arr xs1) (toString (0 + j)) = .ok (xs1.getD j .undefined) := by
        intro j hj
        rw [Nat.zero_add]
        exact getProp_arr_index env xs1 j hj
      rw [validateObjectTypes,
        validateElems_again env c c1 hign hnum xs 0 b xs1 (.arr xs1) hwf hp hbase]
  | .null, _, v1, _, h, _ => by
    simp only [validateObjectTypes, Except.ok.injEq, Prod.mk.injEq, true_and] at h
    subst h
    rfl
  | .undefined, _, _, _, _, h => by simp [typeOf] at h
  | .bool _, _, _, _, _, h => by simp [typeOf] at h
  | .num _, _, _, _, _, h => by simp [typeOf] at h
  | .str _, _, _, _, _, h => by simp [typeOf] at h
theorem validateProps_again (env : Env) (c c1 : Config)
    (hign : c1.ignoreArray = c.ignoreArray) (hnum : c1.allowParseToNumber = c.allowParseToNumber) :
    ∀ (ps : List (String × Val)) (b : Val) (ps1 : List (String × Val)) (base1 : Val),
      Val.WFProps ps = true → validateProps env c ps b = .ok (true, ps1) →
      (∀ q ∈ ps1, getProp env base1 q.1 = .ok q.2) → validateProps env c1 ps base1 = .ok (true, ps1)
  | [], _, ps1, _, _, h, _ => by
    simp only [validateProps, Except.ok.injEq, Prod.mk.injEq, true_and] at h
    subst h
    simp [validateProps]
  | (key, v) :: rest, b, ps1, base1, hwf, h, hbase => by
    simp only [Val.WFProps, Bool.and_eq_true] at hwf
    rw [validateProps_cons env] at h
    cases he : validateEntry env c b key v with
    | error e => simp [he] at h
    | ok q =>
      obtain ⟨r1, v1⟩ := q
      cases r1 with
      | false => simp [he] at h
      | true =>
        simp only [he] at h
        cases hp : validateProps env c rest b with
        | error e => simp [hp] at h
        | ok q2 =>
          obtain ⟨r2, rest1⟩ := q2
          simp only [hp, Except.ok.injEq, Prod.mk.injEq] at h
          obtain ⟨hr2, hps1⟩ := h
          subst hr2 hps1
          have h1 := validateEntry_again env c c1 hign hnum v b key v1 base1 key hwf.1.2 he
            (hbase (key, v1) (List.mem_cons_self _ _))
          have h2 := validateProps_again env c c1 hign hnum rest b rest1 base1 hwf.2 hp
            (fun q hq => hbase q (List.mem_cons_of_mem _ hq))
          rw [validateProps_cons env, h1, h2]
theorem validateElems_again (env : Env) (c c1 : Config)
    (hign : c1.ignoreArray = c.ignoreArray) (hnum : c1.allowParseToNumber = c.allowParseToNumber) :
    ∀ (xs : List Val) (i : Nat) (b : Val) (xs1 : List Val) (base1 : Val),
      Val.WFList xs = true → validateElems env c i xs b = .ok (true, xs1) →
      (∀ j, j < xs1.length → getProp env base1 (toString (i + j)) = .ok (xs1.getD j .undefined)) →
      validateElems env c1 i xs base1 = .ok (true, xs1)
  | [], _, _, xs1, _, _, h, _ => by
    simp only [validateElems, Except.ok.injEq, Prod.mk.injEq, true_and] at h
    subst h
    simp [validateElems]
  | v :: rest, i, b, xs1, base1, hwf, h, hbase => by
    simp only [Val.WFList, Bool.and_eq_true] at hwf
    rw [validateElems_cons env] at h
    cases he : validateEntry env c b (toString i) v with
    | error e => simp [he] at h
    | ok q =>
      obtain ⟨r1, v1⟩ := q
      cases r1 with
      | false => simp [he] at h
      | true =>
        simp only [he] at h
        cases hp : validateElems env c (i + 1) rest b with
        | error e => simp [hp] at h
        | ok q2 =>
          obtain ⟨r2, rest1⟩ := q2
          simp only [hp, Except.ok.injEq, Prod.mk.injEq] at h
          obtain ⟨hr2, hxs1⟩ := h
          subst hr2 hxs1
          have h0 := hbase 0 (by simp)
          simp only [Nat.add_zero, List.getD_cons_zero] at h0
          have h1 := validateEntry_again env c c1 hign hnum v b (toString i) v1 base1 (toString i)
            hwf.1 he h0
          have h2 := validateElems_again env c c1 hign hnum rest (i + 1) b rest1 base1 hwf.2 hp (by
            intro j hj
            have := hbase (j + 1) (by simp; omega)
            simp only [List.getD_cons_succ] at this
            rw [show i + 1 + j = i + (j + 1) by omega]
            exact this)
          rw [validateElems_cons env, h1, h2]
theorem validateEntry_again (env : Env) (c c1 : Config)
    (hign : c1.ignoreArray = c.ignoreArray) (hnum : c1.allowParseToNumber = c.allowParseToNumber) :
    ∀ (v b : Val) (key : String) (v1 base1 : Val) (key1 : String), Val.WF v = true →
      validateEntry env c b key v = .ok (true, v1) → getProp env base1 key1 = .ok v1 →
      validateEntry env c1 base1 key1 v = .ok (true, v1)
  | v, b, key, v1, base1, key1, hwf, h, hget => by
    unfold validateEntry at h
    split at h
    · rename_i hguard
      simp only [Except.ok.injEq, Prod.mk.injEq, true_and] at h
      subst h
      unfold validateEntry
      rw [hign, if_pos hguard]
    · rename_i hguard
      split at h
      · simp at h
      · rename_i b2 hb2
        split at h
        · rename_i hdef
          split at h
          · rename_i hobj
            have hty := typeOf_validateObjectTypes env c v b2 v1 true h
            have hagain := validateObjectTypes_again env c c1 hign hnum v b2 v1 hwf h hobj
            unfold validateEntry
            rw [hign, if_neg hguard, hget]
            simp only [hty, hobj, ne_eq, reduceCtorEq, not_false_eq_true, if_true]
            exact hagain
          · rename_i hobj
            cases hc : checkScalar c key v b2 with
            | error e => simp [hc] at h
            | ok v2 =>
              simp only [hc, Except.ok.injEq, Prod.mk.injEq, true_and] at h
              subst h
              rcases checkScalar_ok c key v b2 v2 hc with ⟨hsame, hv⟩ | ⟨s, hs, hb2n, hflag, hv⟩
              · subst hv
                exact validateEntry_self env c1 v2 base1 key1 hwf hget
              · subst hs hv
                unfold validateEntry
                rw [hign, if_neg hguard, hget]
                simp [typeOf, checkScalar, hnum, hflag]
        · simp only [Except.ok.injEq, Prod.mk.injEq, true_and] at h
          subst h
          exact validateEntry_self env c1 v base1 key1 hwf hget
end

theorem loadObject_again (env : Env) (c : Config) (fs : FS) (ps : List (String × Val)) (ret : Val)
    (hwf : Val.WF (.obj ps) = true) (hok : (loadObject env c fs (.obj ps)).res = .ok ret) :
    loadObject env (loadObject env c fs (.obj ps)).cfg fs (.obj ps) =
      ⟨(loadObject env c fs (.obj ps)).cfg, fs, .ok ret⟩ := by
  have hwf1 : Val.WFProps ps = true := by rw [Val.WF] at hwf; exact hwf
  have hd : distinctKeys ps = true := distinctKeys_of_WFProps ps hwf1
  have hcopy := copyProps_of_distinct ps hd
  unfold loadObject validateTypes at hok
  rw [hcopy, validateObjectTypes] at hok
  cases hp : validateProps env c ps (.obj c.data) with
  | error e => simp [hp] at hok
  | ok q =>
    obtain ⟨r, nc⟩ := q
    have hr : r = true := validateProps_true env c _ _ r nc hp
    subst hr
    simp only [hp, Except.ok.injEq] at hok
    have hfirst : loadObject env c fs (.obj ps) =
        ⟨{ c with data := mergeProps c.data (.obj nc) }, fs,
          .ok (.obj (mergeProps c.data (.obj nc)))⟩ := by
      unfold loadObject validateTypes
      rw [hcopy, validateObjectTypes, hp]
    rw [hfirst]
    have hkeys := keys_of_entryOk env c _ ps nc (validateProps_ok env c _ ps _ _ hp)
    have hd1 : distinctKeys nc = true := by
      rw [distinctKeys_iff_nodup, hkeys, ← distinctKeys_iff_nodup]
      exact hd
    have hlook : ∀ k ∈ ownKeys (.obj nc),
        lookup (mergeProps c.data (.obj nc)) k = some (getOwn (.obj nc) k) := by
      intro k hk
      rw [lookup_mergeProps, if_pos hk]
    have hbase : ∀ q ∈ nc, getProp env (.obj (mergeProps c.data (.obj nc))) q.1 = .ok q.2 := by
      intro q hq
      have hmem : q.1 ∈ ownKeys (.obj nc) := List.mem_map.mpr ⟨q, hq, rfl⟩
      have hq1 : getOwn (.obj nc) q.1 = q.2 := by
        simp [getOwn, lookup_of_mem_distinct nc hd1 q.1 q.2 hq]
      exact getProp_obj env _ _ _ (by rw [hlook q.1 hmem, hq1])
    have hsecond := validateProps_again env c { c with data := mergeProps c.data (.obj nc) } rfl rfl
      ps (.obj c.data) nc (.obj (mergeProps c.data (.obj nc))) hwf1 hp hbase
    have hmerge : mergeProps (mergeProps c.data (.obj nc)) (.obj nc) =
        mergeProps c.data (.obj nc) :=
      foldl_setOwn_fixed (getOwn (.obj nc)) _ _ hlook
    unfold loadObject validateTypes
    rw [hcopy, validateObjectTypes]
    simp only [hsecond, hmerge]
    rw [← hok]

/-- Claim C17. Loading is idempotent: when `fromJson(p)` succeeds on a
well-formed object payload `p`, a second `fromJson(p)` on the resulting store
succeeds as well, returns the same value and leaves the store, its data
included, as the first call left it. -/
theorem fromJson_idempotent (env : Env) (c : Config) (fs : FS) (ps : List (String × Val))
    (ret : Val) (hwf : Val.WF (.obj ps) = true)
    (hok : (fromJson env c fs (.obj ps)).res = .ok ret) :
    (fromJson env (fromJson env c fs (.obj ps)).cfg (fromJson env c fs (.obj ps)).fs
        (.obj ps)).res = .ok ret ∧
    (fromJson env (fromJson env c fs (.obj ps)).cfg (fromJson env c fs (.obj ps)).fs
        (.obj ps)).cfg = (fromJson env c fs (.obj ps)).cfg := by
  have hns : typeOf (.obj ps) ≠ .string := by simp [typeOf]
  rw [fromJson_of_not_string env c fs (.obj ps) hns] at hok ⊢
  rw [fromJson_of_not_string env _ _ (.obj ps) hns, (loadObject_cfg env c fs (.obj ps)).2,
    loadObject_again env c fs ps ret hwf hok]
  exact ⟨rfl, rfl⟩

/-- Witness for C17: the payload of the merge example loaded twice; the second
load coerces `"5"` against the number stored by the first and changes
nothing. -/
theorem fromJson_idempotent_witness :
    (fromJson demoEnv (fromJson demoEnv mergeStore noFiles mergePayload).cfg
        (fromJson demoEnv mergeStore noFiles mergePayload).fs mergePayload).res =
      .ok (.obj [("a", .num (.fin 5 0)), ("n", .obj [("x", .num (.fin 3 0))]),
        ("keep", .bool true), ("b", .str "new")]) ∧
    (fromJson demoEnv (fromJson demoEnv mergeStore noFiles mergePayload).cfg
        (fromJson demoEnv mergeStore noFiles mergePayload).fs mergePayload).cfg =
      (fromJson demoEnv mergeStore noFiles mergePayload).cfg :=
  fromJson_idempotent demoEnv mergeStore noFiles
    [("a", .str "5"), ("n", .obj [("x", .str "3")]), ("b", .str "new")]
    (.obj [("a", .num (.fin 5 0)), ("n", .obj [("x", .num (.fin 3 0))]),
      ("keep", .bool true), ("b", .str "new")]) (by decide) (by decide)

end MrConfig
